import Mathlib

/-!
# SimExchange matching engine and simulation orchestrator: a shallow embedding

This development embeds the order-matching and simulation code of the
SimExchange repository in Lean and proves (or refutes) the stated design
properties against it.

The repository contains two parallel implementations of the engine:

* the legacy one in `src/order_book.py` (class `OrderBook`) driven by
  `src/simulator.py` (class `TradingSimulator`), and
* the service-based one in `src/simexchange/core` (`OrderBookService`,
  `SimulationService`, `TradingSimulator`, and the `Order`/`Trade`/`Agent`
  models).

Python floats are embedded as rationals (ℚ): every operation the claims
touch is addition, subtraction, multiplication, division and comparison on
small decimal constants, where ℚ is exact. Python ints are embedded as ℤ
(quantities, agent ids) or ℕ (counters that the code only increments).
Wall-clock timestamps (`time.time()`) are passed in as an explicit rational
parameter `τ`; the trade-history timestamps play no role in any claim.
-/

namespace SimExchange

/-- `OrderType` from `src/simexchange/core/models/order.py` (identical in
`src/order_book.py`). -/
inductive OrderType where
  | BUY
  | SELL
deriving DecidableEq, Repr

/-- `Order` dataclass from `src/order_book.py` and
`src/simexchange/core/models/order.py` (same fields in both). -/
structure Order where
  id : ℕ
  price : ℚ
  quantity : ℤ
  order_type : OrderType
  agent_id : ℤ
  timestamp : ℚ
deriving DecidableEq, Repr

/-- `Trade` dataclass from `src/order_book.py` and
`src/simexchange/core/models/trade.py` (same fields in both). -/
structure Trade where
  id : ℕ
  price : ℚ
  quantity : ℤ
  buyer_id : ℤ
  seller_id : ℤ
  timestamp : ℚ
deriving DecidableEq, Repr

/-- The validation performed by `Order.__post_init__` in
`src/simexchange/core/models/order.py`: it raises `ValueError` when
`price <= 0`, `quantity <= 0`, or `agent_id < 0`.  Construction of an
`Order` in the simexchange model is fallible, so it is embedded as an
`Option`: `none` is the raised `ValueError`.  (The legacy `Order` dataclass
in `src/order_book.py` has no `__post_init__` and performs no validation.) -/
def Order.mk_checked (id : ℕ) (price : ℚ) (quantity : ℤ) (order_type : OrderType)
    (agent_id : ℤ) (timestamp : ℚ) : Option Order :=
  if price ≤ 0 then none
  else if quantity ≤ 0 then none
  else if agent_id < 0 then none
  else some ⟨id, price, quantity, order_type, agent_id, timestamp⟩

/-- `Trade.create_from_orders` from `src/simexchange/core/models/trade.py`:
the trade's price is the SELL order's price (`price=sell_order.price`),
the buyer is the buy order's agent and the seller is the sell order's agent.
The guards it raises on (wrong order types, non-positive or excessive
quantity) cannot fire at its two call sites in `OrderBookService`, where the
first argument is always the buy order, the second always the sell order,
and the quantity is `min` of the two positive remaining quantities; the
embedding is the successful branch.  `τ` stands for `time.time()`. -/
def Trade.create_from_orders (trade_id : ℕ) (buy_order sell_order : Order)
    (quantity : ℤ) (τ : ℚ) : Trade :=
  { id := trade_id
    price := sell_order.price
    quantity := quantity
    buyer_id := buy_order.agent_id
    seller_id := sell_order.agent_id
    timestamp := τ }

/-- Result of one pass of the matching loop over the opposing book. -/
structure WalkResult where
  trades : List Trade
  book : List Order
  rem : ℤ
  tid : ℕ
  cur : ℚ
deriving Repr

/-- The matching loop shared (textually duplicated) by
`OrderBook.add_order` (`src/order_book.py` lines 48-80 and 93-125) and
`OrderBookService._process_buy_order` / `_process_sell_order`
(`src/simexchange/core/services/order_book_service.py`).

The Python code iterates over the whole opposing list with the guard
`if <price crossable> and remaining_quantity > 0`, records fully filled
resting orders in `orders_to_remove`, pops them afterwards, and `break`s
when the remaining quantity hits zero (equivalent to scanning on: the guard
is then false at every later element).  The recursion below walks the list
once, keeps an un-crossable or partially filled resting order (with its
decremented quantity), and drops a fully filled one.

Parameters: `priceOK r` is the engine-and-side-specific crossability test;
`mk tid r tq` builds the engine-and-side-specific trade for resting order
`r` and traded quantity `tq`; `cur` threads `self.current_price`, which the
legacy engine assigns to the new trade's price inside the loop (the
service engine ignores this component and sets its price afterwards). -/
def matchWalk (priceOK : Order → Prop) [DecidablePred priceOK]
    (mk : ℕ → Order → ℤ → Trade) :
    ℤ → ℕ → ℚ → List Order → WalkResult
  | rem, tid, cur, [] => ⟨[], [], rem, tid, cur⟩
  | rem, tid, cur, r :: rest =>
    if priceOK r ∧ 0 < rem then
      let tq := min rem r.quantity
      let t := mk tid r tq
      let w := matchWalk priceOK mk (rem - tq) (tid + 1) t.price rest
      if r.quantity - tq = 0 then
        ⟨t :: w.trades, w.book, w.rem, w.tid, w.cur⟩
      else
        ⟨t :: w.trades, { r with quantity := r.quantity - tq } :: w.book,
          w.rem, w.tid, w.cur⟩
    else
      let w := matchWalk priceOK mk rem tid cur rest
      ⟨w.trades, r :: w.book, w.rem, w.tid, w.cur⟩

/-! ## The legacy engine: class `OrderBook` in `src/order_book.py` -/

/-- State of the legacy `OrderBook` (`src/order_book.py` lines 29-37). -/
structure OrderBook where
  initial_price : ℚ
  current_price : ℚ
  buy_orders : List Order
  sell_orders : List Order
  trades : List Trade
  next_order_id : ℕ
  next_trade_id : ℕ
deriving DecidableEq, Repr

/-- `OrderBook.__init__`. -/
def OrderBook.init (initial_price : ℚ) : OrderBook :=
  ⟨initial_price, initial_price, [], [], [], 1, 1⟩

/-- Crossability test of the legacy (and service) buy loop:
`sell_order.price <= order.price`. -/
def buyCross (o : Order) (r : Order) : Prop := r.price ≤ o.price

/-- Crossability test of the legacy (and service) sell loop:
`buy_order.price >= order.price`. -/
def sellCross (o : Order) (r : Order) : Prop := o.price ≤ r.price

instance (o : Order) : DecidablePred (buyCross o) := fun r =>
  inferInstanceAs (Decidable (r.price ≤ o.price))

instance (o : Order) : DecidablePred (sellCross o) := fun r =>
  inferInstanceAs (Decidable (o.price ≤ r.price))

/-- The trade built at `src/order_book.py` lines 53-60 (incoming BUY,
resting sell order `r`): price is `sell_order.price`, buyer is the incoming
order's agent, seller is the resting order's agent. -/
def legacyBuyTrade (o : Order) (τ : ℚ) (tid : ℕ) (r : Order) (tq : ℤ) : Trade :=
  ⟨tid, r.price, tq, o.agent_id, r.agent_id, τ⟩

/-- The trade built at `src/order_book.py` lines 98-105 (incoming SELL,
resting buy order `r`): price is `buy_order.price`, buyer is the resting
order's agent, seller is the incoming order's agent. -/
def legacySellTrade (o : Order) (τ : ℚ) (tid : ℕ) (r : Order) (tq : ℤ) : Trade :=
  ⟨tid, r.price, tq, r.agent_id, o.agent_id, τ⟩

/-- Sort relation for the legacy buy book:
`self.buy_orders.sort(key=lambda x: x.price, reverse=True)` orders by price
descending. -/
def rBuy (a b : Order) : Prop := b.price ≤ a.price

/-- Sort relation for the legacy sell book:
`self.sell_orders.sort(key=lambda x: x.price)` orders by price ascending. -/
def rSell (a b : Order) : Prop := a.price ≤ b.price

instance : DecidableRel rBuy := fun a b =>
  inferInstanceAs (Decidable (b.price ≤ a.price))

instance : DecidableRel rSell := fun a b =>
  inferInstanceAs (Decidable (a.price ≤ b.price))

/-- `OrderBook.add_order` (`src/order_book.py` lines 39-133).  The incoming
order walks the opposing book; each trade is appended to `self.trades` and
assigned `self.next_trade_id`; `self.current_price` is assigned the trade's
price inside the loop (so after the call it is the last trade's price, or
unchanged when no trade occurred); a positive remainder is written back
into `order.quantity`, appended to the same-side book and the book is
re-sorted with Python's stable `list.sort` (embedded as the stable
`List.insertionSort`, which produces the same list on every input a stable
sort is applied to).  Returns the new trades and the updated state. -/
def OrderBook.add_order (s : OrderBook) (o : Order) (τ : ℚ) :
    List Trade × OrderBook :=
  match o.order_type with
  | OrderType.BUY =>
    let w := matchWalk (buyCross o) (legacyBuyTrade o τ) o.quantity
      s.next_trade_id s.current_price s.sell_orders
    let buy' := if 0 < w.rem then
        List.insertionSort rBuy (s.buy_orders ++ [{ o with quantity := w.rem }])
      else s.buy_orders
    (w.trades,
      { s with
        current_price := w.cur
        sell_orders := w.book
        buy_orders := buy'
        trades := s.trades ++ w.trades
        next_trade_id := w.tid })
  | OrderType.SELL =>
    let w := matchWalk (sellCross o) (legacySellTrade o τ) o.quantity
      s.next_trade_id s.current_price s.buy_orders
    let sell' := if 0 < w.rem then
        List.insertionSort rSell (s.sell_orders ++ [{ o with quantity := w.rem }])
      else s.sell_orders
    (w.trades,
      { s with
        current_price := w.cur
        buy_orders := w.book
        sell_orders := sell'
        trades := s.trades ++ w.trades
        next_trade_id := w.tid })

/-- `OrderBook.get_best_bid`: the first buy order's price, if any. -/
def OrderBook.get_best_bid (s : OrderBook) : Option ℚ :=
  s.buy_orders.head?.map Order.price

/-- `OrderBook.get_best_ask`: the first sell order's price, if any. -/
def OrderBook.get_best_ask (s : OrderBook) : Option ℚ :=
  s.sell_orders.head?.map Order.price

/-- `OrderBook.get_spread`: `best_ask - best_bid` when both are truthy.
Python's `if best_bid and best_ask:` treats the float `0.0` as falsy, so a
best price of exactly 0 also yields `None`; the embedding keeps that. -/
def OrderBook.get_spread (s : OrderBook) : Option ℚ :=
  match s.get_best_bid, s.get_best_ask with
  | some b, some a => if b ≠ 0 ∧ a ≠ 0 then some (a - b) else none
  | _, _ => none

/-! ## The service engine: class `OrderBookService` in
`src/simexchange/core/services/order_book_service.py` -/

/-- State of `OrderBookService` (lines 13-27). -/
structure OrderBookService where
  initial_price : ℚ
  current_price : ℚ
  max_trades_history : ℕ
  buy_orders : List Order
  sell_orders : List Order
  trades : List Trade
  next_order_id : ℕ
  next_trade_id : ℕ
deriving DecidableEq, Repr

/-- `OrderBookService.__init__` (default `max_trades_history=5000`). -/
def OrderBookService.init (initial_price : ℚ) (max_trades_history : ℕ) :
    OrderBookService :=
  ⟨initial_price, initial_price, max_trades_history, [], [], [], 1, 1⟩

/-- The per-trade cap on `self.trades` applied inside both processing
loops: after appending, `if len(self.trades) > self.max_trades_history:
self.trades = self.trades[-self.max_trades_history:]`. -/
def appendTradeCapped (cap : ℕ) (l : List Trade) (t : Trade) : List Trade :=
  let l' := l ++ [t]
  if cap < l'.length then l'.drop (l'.length - cap) else l'

/-- `OrderBookService._insert_buy_order`: scan for the first resting order
whose price is strictly below the new order's and insert there; append at
the end otherwise.  Equal-priced resting orders therefore keep priority. -/
def _insert_buy_order (o : Order) : List Order → List Order
  | [] => [o]
  | e :: rest =>
    if e.price < o.price then o :: e :: rest
    else e :: _insert_buy_order o rest

/-- `OrderBookService._insert_sell_order`: symmetric scan insertion for the
ascending sell book. -/
def _insert_sell_order (o : Order) : List Order → List Order
  | [] => [o]
  | e :: rest =>
    if o.price < e.price then o :: e :: rest
    else e :: _insert_sell_order o rest

/-- Trade built by `_process_buy_order` (incoming BUY `o`, resting sell `r`)
via `Trade.create_from_orders(self.next_trade_id, order, sell_order, tq)`:
price is the resting sell order's price. -/
def serviceBuyTrade (o : Order) (τ : ℚ) (tid : ℕ) (r : Order) (tq : ℤ) : Trade :=
  Trade.create_from_orders tid o r tq τ

/-- Trade built by `_process_sell_order` (incoming SELL `o`, resting buy
`r`) via `Trade.create_from_orders(self.next_trade_id, buy_order, order,
tq)`: price is the INCOMING sell order's price. -/
def serviceSellTrade (o : Order) (τ : ℚ) (tid : ℕ) (r : Order) (tq : ℤ) : Trade :=
  Trade.create_from_orders tid r o tq τ

/-- `OrderBookService._process_buy_order` (lines 44-89): walk the sell
book, append each trade to the capped history, insert a positive remainder
with `_insert_buy_order`. -/
def _process_buy_order (s : OrderBookService) (o : Order) (τ : ℚ) :
    List Trade × OrderBookService :=
  let w := matchWalk (buyCross o) (serviceBuyTrade o τ) o.quantity
    s.next_trade_id s.current_price s.sell_orders
  let buy' := if 0 < w.rem then
      _insert_buy_order { o with quantity := w.rem } s.buy_orders
    else s.buy_orders
  (w.trades,
    { s with
      sell_orders := w.book
      buy_orders := buy'
      trades := w.trades.foldl (appendTradeCapped s.max_trades_history) s.trades
      next_trade_id := w.tid })

/-- `OrderBookService._process_sell_order` (lines 91-136). -/
def _process_sell_order (s : OrderBookService) (o : Order) (τ : ℚ) :
    List Trade × OrderBookService :=
  let w := matchWalk (sellCross o) (serviceSellTrade o τ) o.quantity
    s.next_trade_id s.current_price s.buy_orders
  let sell' := if 0 < w.rem then
      _insert_sell_order { o with quantity := w.rem } s.sell_orders
    else s.sell_orders
  (w.trades,
    { s with
      buy_orders := w.book
      sell_orders := sell'
      trades := w.trades.foldl (appendTradeCapped s.max_trades_history) s.trades
      next_trade_id := w.tid })

/-- `OrderBookService.add_order` (lines 29-42): dispatch on the order type,
then `if new_trades: self.current_price = new_trades[-1].price`. -/
def OrderBookService.add_order (s : OrderBookService) (o : Order) (τ : ℚ) :
    List Trade × OrderBookService :=
  let res :=
    match o.order_type with
    | OrderType.BUY => _process_buy_order s o τ
    | OrderType.SELL => _process_sell_order s o τ
  (res.1,
    { res.2 with
      current_price := (res.1.getLast?.map Trade.price).getD res.2.current_price })

/-- `OrderBookService.get_best_bid`. -/
def OrderBookService.get_best_bid (s : OrderBookService) : Option ℚ :=
  s.buy_orders.head?.map Order.price

/-- `OrderBookService.get_best_ask`. -/
def OrderBookService.get_best_ask (s : OrderBookService) : Option ℚ :=
  s.sell_orders.head?.map Order.price

/-- `OrderBookService.get_spread` (same Python truthiness caveat as the
legacy `OrderBook.get_spread`). -/
def OrderBookService.get_spread (s : OrderBookService) : Option ℚ :=
  match s.get_best_bid, s.get_best_ask with
  | some b, some a => if b ≠ 0 ∧ a ≠ 0 then some (a - b) else none
  | _, _ => none

/-! ## Agents and the simulation cycle (`src/trading_agent.py`,
`src/simulator.py`) -/

/-- The ledger part of the legacy `Agent` (`src/trading_agent.py`): only
`id`, `balance` and `position` participate in trade application; the
strategy object, random behavioural parameters and order counters are
not read or written by `update_after_trade` and are omitted. -/
structure AgentL where
  id : ℤ
  balance : ℚ
  position : ℤ
deriving DecidableEq, Repr

/-- `Agent.update_after_trade` (`src/trading_agent.py` lines 179-186):
a buyer pays `price*quantity` and gains the shares, a seller receives
`price*quantity` and loses the shares.  (The simexchange
`Agent.update_after_trade` in `core/models/agent.py` lines 85-99 applies
the identical balance/position update, plus volume counters.) -/
def AgentL.update_after_trade (a : AgentL) (trade_price : ℚ)
    (trade_quantity : ℤ) (is_buyer : Bool) : AgentL :=
  if is_buyer then
    { a with
      balance := a.balance - trade_price * trade_quantity
      position := a.position + trade_quantity }
  else
    { a with
      balance := a.balance + trade_price * trade_quantity
      position := a.position - trade_quantity }

/-- The per-submission trade application of `TradingSimulator.run_cycle`
(`src/simulator.py` lines 70-74): for each returned trade, update the
SUBMITTING agent if it is the buyer, else the seller; no other agent is
touched.  (`src/simexchange/core/services/trading_simulator.py` lines
63-72 has the identical if/elif on the submitting agent.) -/
def applyTradesToAgent (a : AgentL) (trades : List Trade) : AgentL :=
  trades.foldl
    (fun a t =>
      if t.buyer_id = a.id then a.update_after_trade t.price t.quantity true
      else if t.seller_id = a.id then a.update_after_trade t.price t.quantity false
      else a)
    a

/-- The deterministic skeleton of the agent loop in
`TradingSimulator.run_cycle` (`src/simulator.py` lines 57-74).  The random
strategy decision `agent.generate_order(...)` is abstracted as the input
oracle `dec`, mapping an agent's id to the order it submits this cycle (or
`none`).  For each agent in order: if it submits, the order receives
`self.order_book.next_order_id` (which is then incremented), goes through
`OrderBook.add_order`, the returned trades are appended to the cycle's
trade list, and ONLY this agent's ledger is updated from them.
Returns the final book, the updated agent list, and all new trades. -/
def run_cycle_agents (dec : ℤ → Option Order) (τ : ℚ) :
    OrderBook → List AgentL → OrderBook × List AgentL × List Trade
  | ob, [] => (ob, [], [])
  | ob, a :: rest =>
    match dec a.id with
    | none =>
      let w := run_cycle_agents dec τ ob rest
      (w.1, a :: w.2.1, w.2.2)
    | some o =>
      let res := OrderBook.add_order
        { ob with next_order_id := ob.next_order_id + 1 }
        { o with id := ob.next_order_id } τ
      let w := run_cycle_agents dec τ res.2 rest
      (w.1, applyTradesToAgent a res.1 :: w.2.1, res.1 ++ w.2.2)

/-! ## Rolling statistics: `SimulationService`
(`src/simexchange/core/services/simulation_service.py`) and the legacy
`TradingSimulator` statistics (`src/simulator.py`) -/

/-- The percentage returns `(p[i] - p[i-1]) / p[i-1]` over consecutive
entries, as computed by the `for i in range(1, len(...))` loops of both
volatility functions. -/
def pct_changes : List ℚ → List ℚ
  | a :: b :: rest => (b - a) / a :: pct_changes (b :: rest)
  | _ => []

/-- `SimulationService.calculate_volatility` (lines 62-88).  `skip` is
`self.config.skip_volatility_calculation`; `ph` is `self.price_history`.
`ph[-5:]` is `drop (length - 5)` (ℕ subtraction truncates at 0 exactly as
the Python slice keeps the whole list when it is shorter than 5). -/
def calculate_volatility (skip : Bool) (ph : List ℚ) : ℚ :=
  if ph.length < 2 then 1/100
  else if skip then 1/100
  else
    let recent := ph.drop (ph.length - 5)
    if recent.length < 2 then 1/100
    else
      let price_changes := pct_changes recent
      if price_changes = [] then 1/100
      else
        let avg_change :=
          ((price_changes.map (fun c => |c|)).sum) / price_changes.length
        max (1/200) (min (avg_change * 2) (1/20))

/-- `TradingSimulator._calculate_volatility` (`src/simulator.py` lines
101-122): over the last 10 prices it takes the standard deviation of the
returns — `(variance) ** 0.5`, embedded with `Real.sqrt`, which is why this
one definition lands in ℝ — and clamps it into `[0.005, 0.05]`.  There is
no fast-mode flag. -/
noncomputable def _calculate_volatility (ph : List ℚ) : ℝ :=
  if ph.length < 2 then 1/100
  else
    let recent := ph.drop (ph.length - 10)
    let returns := pct_changes recent
    if returns = [] then 1/100
    else
      let mean_return := returns.sum / returns.length
      let variance : ℚ :=
        ((returns.map (fun r => (r - mean_return) ^ 2)).sum) / returns.length
      max (1/200) (min (1/20) (Real.sqrt (variance : ℝ)))

/-- The shared shape of the four `SimulationService.update_*` methods
(lines 101-135): append, then if the length exceeds
`self.config.max_history_size`, keep the trailing
`max_history_size // 2` entries (`l[-keep_size:]`). -/
def appendHalved (cap : ℕ) (l : List α) (x : α) : List α :=
  let l' := l ++ [x]
  if cap < l'.length then l'.drop (l'.length - cap / 2) else l'

/-- `SimulationService.update_price` (lines 101-108). -/
def update_price (cap : ℕ) (price_history : List ℚ) (new_price : ℚ) : List ℚ :=
  appendHalved cap price_history new_price

/-- `SimulationService.update_volume` (lines 110-117). -/
def update_volume (cap : ℕ) (volume_history : List ℤ) (volume : ℤ) : List ℤ :=
  appendHalved cap volume_history volume

/-- `SimulationService.update_trade_count` (lines 119-126). -/
def update_trade_count (cap : ℕ) (trade_count_history : List ℕ) (count : ℕ) :
    List ℕ :=
  appendHalved cap trade_count_history count

/-- `SimulationService.update_spread` (lines 128-135). -/
def update_spread (cap : ℕ) (spread_history : List ℚ) (spread : ℚ) : List ℚ :=
  appendHalved cap spread_history spread

/-- The history buffers of the legacy `TradingSimulator`
(`src/simulator.py` lines 27-30). -/
structure SimStats where
  price_history : List ℚ
  volume_history : List ℤ
  trade_count_history : List ℕ
  spread_history : List ℚ
deriving DecidableEq, Repr

/-- `TradingSimulator._update_statistics` (`src/simulator.py` lines
174-197): append the closing price, the cycle's total volume and trade
count, and the spread when it is not `None`; then, when the price history
exceeds the hard-coded `max_history = 1000`, cut ALL four buffers down to
their trailing 1000 entries (`[-max_history:]` — the full cap, not half).
`current_price` and `current_spread` are read from `self.order_book` and
passed here as arguments. -/
def _update_statistics (st : SimStats) (current_price : ℚ)
    (current_spread : Option ℚ) (new_trades : List Trade) : SimStats :=
  let ph := st.price_history ++ [current_price]
  let vh := st.volume_history ++ [(new_trades.map Trade.quantity).sum]
  let th := st.trade_count_history ++ [new_trades.length]
  let sh := match current_spread with
    | some sp => st.spread_history ++ [sp]
    | none => st.spread_history
  if 1000 < ph.length then
    ⟨ph.drop (ph.length - 1000), vh.drop (vh.length - 1000),
      th.drop (th.length - 1000), sh.drop (sh.length - 1000)⟩
  else
    ⟨ph, vh, th, sh⟩

/-! ## Configuration setters -/

/-- The settings fields of the legacy `TradingSimulator`
(`src/simulator.py` lines 31-36) that its two setters touch. -/
structure SimSettings where
  avg_spread_cycles : ℤ
  balance_increase_cycles : ℤ
  balance_increase_amount : ℚ
deriving DecidableEq, Repr

/-- `TradingSimulator.set_avg_spread_cycles` (`src/simulator.py` lines
135-137): `max(1, min(cycles, 1000))` — the value is clamped, stored, and
no error is ever raised. -/
def set_avg_spread_cycles (s : SimSettings) (cycles : ℤ) : SimSettings :=
  { s with avg_spread_cycles := max 1 (min cycles 1000) }

/-- `TradingSimulator.set_balance_increase_settings` (`src/simulator.py`
lines 149-153): cycles clamped into `[1, 10000]`, amount clamped to `≥ 0`;
both stored unconditionally. -/
def set_balance_increase_settings (s : SimSettings) (cycles : ℤ) (amount : ℚ) :
    SimSettings :=
  { s with
    balance_increase_cycles := max 1 (min cycles 10000)
    balance_increase_amount := max 0 amount }

/-- The corresponding fields of `SimulationConfig`
(`src/simexchange/core/models/simulation_config.py`). -/
structure SimulationConfig where
  balance_increase_cycles : ℤ
  balance_increase_amount : ℚ
  avg_spread_cycles : ℤ
deriving DecidableEq, Repr

/-- `TradingSimulator.set_balance_increase_settings` of the service
coordinator (`src/simexchange/core/services/trading_simulator.py` lines
219-222): identical clamping, written into `self.config`. -/
def svc_set_balance_increase_settings (c : SimulationConfig) (cycles : ℤ)
    (amount : ℚ) : SimulationConfig :=
  { c with
    balance_increase_cycles := max 1 (min cycles 10000)
    balance_increase_amount := max 0 amount }

/-- `TradingSimulator.set_avg_spread_cycles` of the service coordinator
(`src/simexchange/core/services/trading_simulator.py` lines 224-226). -/
def svc_set_avg_spread_cycles (c : SimulationConfig) (cycles : ℤ) :
    SimulationConfig :=
  { c with avg_spread_cycles := max 1 (min cycles 1000) }

/-! ## Specification-side definitions

These two definitions are written from the specification's words, not from
the source, and exist only to be compared against the embedded code. -/

/-- The specification's volatility formula, for comparison with the two
embedded volatility functions: over at most the last 5 price points, the
mean of the absolute per-step returns, doubled, clamped into
[0.005, 0.05]. -/
def volatility_spec (ph : List ℚ) : ℚ :=
  let recent := ph.drop (ph.length - 5)
  let rets := List.zipWith (fun a b => (b - a) / a) recent recent.tail
  max (1/200) (min (1/20) (2 * ((rets.map (fun r => |r|)).sum / rets.length)))

/-- Price-time priority for the buy book, as the specification states it:
prices non-increasing and, at equal price, arrival (timestamp) order
non-decreasing. -/
def buyPriority (a b : Order) : Prop :=
  b.price < a.price ∨ (a.price = b.price ∧ a.timestamp ≤ b.timestamp)

/-- Price-time priority for the sell book: prices non-decreasing and, at
equal price, arrival order non-decreasing. -/
def sellPriority (a b : Order) : Prop :=
  a.price < b.price ∨ (a.price = b.price ∧ a.timestamp ≤ b.timestamp)

/-- The buy-book sort invariant of the specification. -/
def sortedBuyBook (l : List Order) : Prop := l.Pairwise buyPriority

/-- The sell-book sort invariant of the specification. -/
def sortedSellBook (l : List Order) : Prop := l.Pairwise sellPriority

instance : DecidableRel buyPriority := fun a b => by
  unfold buyPriority; infer_instance

instance : DecidableRel sellPriority := fun a b => by
  unfold sellPriority; infer_instance

/-- Total book quantity (in ℤ). -/
def qsum (l : List Order) : ℤ := (l.map Order.quantity).sum

/-- Total traded quantity of a trade list (in ℤ). -/
def tsum (l : List Trade) : ℤ := (l.map Trade.quantity).sum

/-! ## Concrete scenarios used by individual claims -/

/-- First order of the specification's worked example: Sell 10@99. -/
def c4_o1 : Order := ⟨1, 99, 10, OrderType.SELL, 1, 1⟩

/-- Second order of the worked example: Sell 10@101. -/
def c4_o2 : Order := ⟨2, 101, 10, OrderType.SELL, 2, 2⟩

/-- Third order of the worked example: Buy 15@100. -/
def c4_o3 : Order := ⟨3, 100, 15, OrderType.BUY, 3, 3⟩

/-- The worked example run on the legacy engine from an empty book at
initial price 100. -/
def c4_legacy : List Trade × OrderBook :=
  let s1 := ((OrderBook.init 100).add_order c4_o1 1).2
  let s2 := (s1.add_order c4_o2 2).2
  s2.add_order c4_o3 3

/-- The worked example run on the service engine. -/
def c4_service : List Trade × OrderBookService :=
  let s1 := ((OrderBookService.init 100 5000).add_order c4_o1 1).2
  let s2 := (s1.add_order c4_o2 2).2
  s2.add_order c4_o3 3

/-- Service book holding one resting BUY 10@101 of agent 0 (for the trade
price counterexample). -/
def c1_state : OrderBookService :=
  { OrderBookService.init 100 5000 with
    buy_orders := [⟨1, 101, 10, OrderType.BUY, 0, 0⟩] }

/-- Incoming SELL 10@99 of agent 1 crossing `c1_state`. -/
def c1_incoming : Order := ⟨2, 99, 10, OrderType.SELL, 1, 1⟩

/-- An order with negative price, constructible because the legacy `Order`
dataclass validates nothing. -/
def c2_bad : Order := ⟨1, -1, 5, OrderType.SELL, 0, 0⟩

/-- Decision oracle of the counterparty-update counterexample: agent 0
submits Sell 10@100, agent 1 then submits Buy 10@100. -/
def c3_dec : ℤ → Option Order := fun i =>
  if i = 0 then some ⟨0, 100, 10, OrderType.SELL, 0, 1⟩
  else if i = 1 then some ⟨0, 100, 10, OrderType.BUY, 1, 2⟩
  else none

/-- Two agents, both starting with balance 10000 and position 0. -/
def c3_agents : List AgentL := [⟨0, 10000, 0⟩, ⟨1, 10000, 0⟩]

/-- The full cycle of the counterexample. -/
def c3_run : OrderBook × List AgentL × List Trade :=
  run_cycle_agents c3_dec 2 (OrderBook.init 100) c3_agents

/-- Legacy statistics buffers after the price history has grown to 1001
entries (what 1000 cycles from the initial singleton history produce),
with constant price 100 and no trades or spreads recorded. -/
def c6_stats : SimStats :=
  ⟨List.replicate 1001 100, List.replicate 1001 0, List.replicate 1001 0, []⟩

/-- The legacy simulator's settings at their constructor defaults
(`src/simulator.py` lines 31-36). -/
def c8_legacy_defaults : SimSettings := ⟨50, 100, 1000⟩

/-- The service configuration defaults
(`src/simexchange/core/models/simulation_config.py` lines 24-28). -/
def c8_svc_defaults : SimulationConfig := ⟨100, 1000, 50⟩

/-! ## Helper lemmas about the matching walk -/

/-- Projection of an order to the data the sort invariants read. -/
def projPT (o : Order) : ℚ × ℚ := (o.price, o.timestamp)

/-- `buyPriority` through the projection. -/
def bpRel (p q : ℚ × ℚ) : Prop := q.1 < p.1 ∨ (p.1 = q.1 ∧ p.2 ≤ q.2)

/-- `sellPriority` through the projection. -/
def spRel (p q : ℚ × ℚ) : Prop := p.1 < q.1 ∨ (p.1 = q.1 ∧ p.2 ≤ q.2)

theorem sortedBuyBook_iff (l : List Order) :
    sortedBuyBook l ↔ (l.map projPT).Pairwise bpRel := by
  unfold sortedBuyBook
  rw [List.pairwise_map]
  rfl

theorem sortedSellBook_iff (l : List Order) :
    sortedSellBook l ↔ (l.map projPT).Pairwise spRel := by
  unfold sortedSellBook
  rw [List.pairwise_map]
  rfl

/-- The book that survives the matching walk is, up to quantity updates, a
sublist of the original: its price/timestamp projection is a sublist of
the original projection. -/
theorem matchWalk_proj_sublist (P : Order → Prop) [DecidablePred P]
    (mk : ℕ → Order → ℤ → Trade) :
    ∀ (rem : ℤ) (tid : ℕ) (cur : ℚ) (book : List Order),
      ((matchWalk P mk rem tid cur book).book.map projPT).Sublist
        (book.map projPT)
  | rem, tid, cur, [] => by simp [matchWalk]
  | rem, tid, cur, r :: rest => by
    rw [matchWalk]
    by_cases h : P r ∧ 0 < rem
    · simp only [if_pos h]
      by_cases h0 : r.quantity - min rem r.quantity = 0
      · simp only [if_pos h0]
        exact (matchWalk_proj_sublist P mk _ _ _ rest).cons _
      · simp only [if_neg h0, List.map_cons]
        have : projPT { r with quantity := r.quantity - min rem r.quantity } =
            projPT r := rfl
        rw [this]
        exact (matchWalk_proj_sublist P mk _ _ _ rest).cons₂ _
    · simp only [if_neg h, List.map_cons]
      exact (matchWalk_proj_sublist P mk _ _ _ rest).cons₂ _

/-- Walking an opposing book preserves the buy-book sort invariant. -/
theorem sortedBuyBook_matchWalk (P : Order → Prop) [DecidablePred P]
    (mk : ℕ → Order → ℤ → Trade) (rem : ℤ) (tid : ℕ) (cur : ℚ)
    (book : List Order) (h : sortedBuyBook book) :
    sortedBuyBook (matchWalk P mk rem tid cur book).book := by
  rw [sortedBuyBook_iff] at h ⊢
  exact List.Pairwise.sublist (matchWalk_proj_sublist P mk rem tid cur book) h

/-- Walking an opposing book preserves the sell-book sort invariant. -/
theorem sortedSellBook_matchWalk (P : Order → Prop) [DecidablePred P]
    (mk : ℕ → Order → ℤ → Trade) (rem : ℤ) (tid : ℕ) (cur : ℚ)
    (book : List Order) (h : sortedSellBook book) :
    sortedSellBook (matchWalk P mk rem tid cur book).book := by
  rw [sortedSellBook_iff] at h ⊢
  exact List.Pairwise.sublist (matchWalk_proj_sublist P mk rem tid cur book) h

/-- The remaining incoming quantity after the walk: the walk consumes
exactly the total traded quantity, provided the trade constructor records
the traded quantity (both engines' constructors do, definitionally). -/
theorem matchWalk_rem (P : Order → Prop) [DecidablePred P]
    (mk : ℕ → Order → ℤ → Trade)
    (hmk : ∀ tid r tq, (mk tid r tq).quantity = tq) :
    ∀ (rem : ℤ) (tid : ℕ) (cur : ℚ) (book : List Order),
      (matchWalk P mk rem tid cur book).rem
        = rem - tsum (matchWalk P mk rem tid cur book).trades
  | rem, tid, cur, [] => by simp [matchWalk, tsum]
  | rem, tid, cur, r :: rest => by
    rw [matchWalk]
    by_cases h : P r ∧ 0 < rem
    · simp only [if_pos h]
      have ih := matchWalk_rem P mk hmk (rem - min rem r.quantity) (tid + 1)
        (mk tid r (min rem r.quantity)).price rest
      by_cases h0 : r.quantity - min rem r.quantity = 0
      · simp only [if_pos h0]
        simp only [tsum, List.map_cons, List.sum_cons, hmk] at ih ⊢
        omega
      · simp only [if_neg h0]
        simp only [tsum, List.map_cons, List.sum_cons, hmk] at ih ⊢
        omega
    · simp only [if_neg h]
      exact matchWalk_rem P mk hmk rem tid cur rest

/-- Book-side quantity conservation: the quantity that leaves the opposing
book is exactly the total traded quantity. -/
theorem matchWalk_qsum (P : Order → Prop) [DecidablePred P]
    (mk : ℕ → Order → ℤ → Trade)
    (hmk : ∀ tid r tq, (mk tid r tq).quantity = tq) :
    ∀ (rem : ℤ) (tid : ℕ) (cur : ℚ) (book : List Order),
      qsum book = tsum (matchWalk P mk rem tid cur book).trades
        + qsum (matchWalk P mk rem tid cur book).book
  | rem, tid, cur, [] => by simp [matchWalk, tsum, qsum]
  | rem, tid, cur, r :: rest => by
    rw [matchWalk]
    by_cases h : P r ∧ 0 < rem
    · simp only [if_pos h]
      have ih := matchWalk_qsum P mk hmk (rem - min rem r.quantity) (tid + 1)
        (mk tid r (min rem r.quantity)).price rest
      by_cases h0 : r.quantity - min rem r.quantity = 0
      · simp only [if_pos h0]
        simp only [tsum, qsum, List.map_cons, List.sum_cons, hmk] at ih ⊢
        omega
      · simp only [if_neg h0]
        simp only [tsum, qsum, List.map_cons, List.sum_cons, hmk] at ih ⊢
        omega
    · simp only [if_neg h]
      have ih := matchWalk_qsum P mk hmk rem tid cur rest
      simp only [tsum, qsum, List.map_cons, List.sum_cons] at ih ⊢
      omega

/-- A resting order survives the walk only with positive remaining
quantity: fully filled orders are removed, partially filled ones keep
their positive remainder. -/
theorem matchWalk_pos (P : Order → Prop) [DecidablePred P]
    (mk : ℕ → Order → ℤ → Trade) :
    ∀ (rem : ℤ) (tid : ℕ) (cur : ℚ) (book : List Order),
      (∀ r ∈ book, 0 < r.quantity) →
      ∀ r ∈ (matchWalk P mk rem tid cur book).book, 0 < r.quantity
  | rem, tid, cur, [], h => by simp [matchWalk]
  | rem, tid, cur, r :: rest, h => by
    have hr : 0 < r.quantity := h r (by simp)
    have hrest : ∀ x ∈ rest, 0 < x.quantity := fun x hx => h x (by simp [hx])
    rw [matchWalk]
    by_cases hc : P r ∧ 0 < rem
    · simp only [if_pos hc]
      by_cases h0 : r.quantity - min rem r.quantity = 0
      · simp only [if_pos h0]
        exact matchWalk_pos P mk _ _ _ rest hrest
      · simp only [if_neg h0]
        intro x hx
        rcases List.mem_cons.mp hx with hx | hx
        · subst hx
          simp only
          have : min rem r.quantity ≤ r.quantity := min_le_right _ _
          omega
        · exact matchWalk_pos P mk _ _ _ rest hrest x hx
    · simp only [if_neg hc]
      intro x hx
      rcases List.mem_cons.mp hx with hx | hx
      · subst hx; exact hr
      · exact matchWalk_pos P mk _ _ _ rest hrest x hx

/-- The walk never drives the remaining incoming quantity negative. -/
theorem matchWalk_rem_nonneg (P : Order → Prop) [DecidablePred P]
    (mk : ℕ → Order → ℤ → Trade) :
    ∀ (rem : ℤ) (tid : ℕ) (cur : ℚ) (book : List Order), 0 ≤ rem →
      0 ≤ (matchWalk P mk rem tid cur book).rem
  | rem, tid, cur, [], h => by simpa [matchWalk] using h
  | rem, tid, cur, r :: rest, h => by
    rw [matchWalk]
    by_cases hc : P r ∧ 0 < rem
    · simp only [if_pos hc]
      have h' : 0 ≤ rem - min rem r.quantity := by
        have : min rem r.quantity ≤ rem := min_le_left _ _
        omega
      by_cases h0 : r.quantity - min rem r.quantity = 0
      · simp only [if_pos h0]
        exact matchWalk_rem_nonneg P mk _ _ _ rest h'
      · simp only [if_neg h0]
        exact matchWalk_rem_nonneg P mk _ _ _ rest h'
    · simp only [if_neg hc]
      exact matchWalk_rem_nonneg P mk _ _ _ rest h

/-- Every trade the walk emits was built by the trade constructor from
some resting order of the pre-walk book, with the crossability test
satisfied. -/
theorem matchWalk_trades_from_book (P : Order → Prop) [DecidablePred P]
    (mk : ℕ → Order → ℤ → Trade) :
    ∀ (rem : ℤ) (tid : ℕ) (cur : ℚ) (book : List Order),
      ∀ t ∈ (matchWalk P mk rem tid cur book).trades,
        ∃ r ∈ book, P r ∧ ∃ tid' tq, t = mk tid' r tq
  | rem, tid, cur, [] => by simp [matchWalk]
  | rem, tid, cur, r :: rest => by
    rw [matchWalk]
    by_cases hc : P r ∧ 0 < rem
    · simp only [if_pos hc]
      by_cases h0 : r.quantity - min rem r.quantity = 0
      · simp only [if_pos h0]
        intro t ht
        rcases List.mem_cons.mp ht with ht | ht
        · exact ⟨r, by simp, hc.1, tid, min rem r.quantity, ht⟩
        · obtain ⟨r', hr', hP, w⟩ :=
            matchWalk_trades_from_book P mk _ _ _ rest t ht
          exact ⟨r', by simp [hr'], hP, w⟩
      · simp only [if_neg h0]
        intro t ht
        rcases List.mem_cons.mp ht with ht | ht
        · exact ⟨r, by simp, hc.1, tid, min rem r.quantity, ht⟩
        · obtain ⟨r', hr', hP, w⟩ :=
            matchWalk_trades_from_book P mk _ _ _ rest t ht
          exact ⟨r', by simp [hr'], hP, w⟩
    · simp only [if_neg hc]
      intro t ht
      obtain ⟨r', hr', hP, w⟩ := matchWalk_trades_from_book P mk _ _ _ rest t ht
      exact ⟨r', by simp [hr'], hP, w⟩

/-- The threaded current price after the walk is the last emitted trade's
price, or the incoming value when no trade was emitted — the legacy
engine's in-loop `self.current_price = ...` assignment. -/
theorem matchWalk_cur (P : Order → Prop) [DecidablePred P]
    (mk : ℕ → Order → ℤ → Trade) :
    ∀ (rem : ℤ) (tid : ℕ) (cur : ℚ) (book : List Order),
      (matchWalk P mk rem tid cur book).cur
        = ((matchWalk P mk rem tid cur book).trades.getLast?.map
            Trade.price).getD cur
  | rem, tid, cur, [] => by simp [matchWalk]
  | rem, tid, cur, r :: rest => by
    rw [matchWalk]
    by_cases hc : P r ∧ 0 < rem
    · simp only [if_pos hc]
      have ih := matchWalk_cur P mk (rem - min rem r.quantity) (tid + 1)
        (mk tid r (min rem r.quantity)).price rest
      by_cases h0 : r.quantity - min rem r.quantity = 0
      · simp only [if_pos h0]
        rw [ih]
        cases hw : (matchWalk P mk (rem - min rem r.quantity) (tid + 1)
            (mk tid r (min rem r.quantity)).price rest).trades with
        | nil => simp
        | cons t ts => simp [List.getLast?_cons_cons, List.getLast?_cons]
      · simp only [if_neg h0]
        rw [ih]
        cases hw : (matchWalk P mk (rem - min rem r.quantity) (tid + 1)
            (mk tid r (min rem r.quantity)).price rest).trades with
        | nil => simp
        | cons t ts => simp [List.getLast?_cons_cons, List.getLast?_cons]
    · simp only [if_neg hc]
      exact matchWalk_cur P mk rem tid cur rest

/-! ## Helper lemmas about the two insertion paths -/

theorem mem_insert_buy_order {x o : Order} :
    ∀ {l : List Order}, x ∈ _insert_buy_order o l → x = o ∨ x ∈ l
  | [], h => by simpa [_insert_buy_order] using h
  | e :: rest, h => by
    rw [_insert_buy_order] at h
    by_cases hc : e.price < o.price
    · rw [if_pos hc] at h
      rcases List.mem_cons.mp h with h | h
      · exact Or.inl h
      · exact Or.inr h
    · rw [if_neg hc] at h
      rcases List.mem_cons.mp h with h | h
      · exact Or.inr (by simp [h])
      · rcases mem_insert_buy_order h with h | h
        · exact Or.inl h
        · exact Or.inr (by simp [h])

theorem mem_insert_sell_order {x o : Order} :
    ∀ {l : List Order}, x ∈ _insert_sell_order o l → x = o ∨ x ∈ l
  | [], h => by simpa [_insert_sell_order] using h
  | e :: rest, h => by
    rw [_insert_sell_order] at h
    by_cases hc : o.price < e.price
    · rw [if_pos hc] at h
      rcases List.mem_cons.mp h with h | h
      · exact Or.inl h
      · exact Or.inr h
    · rw [if_neg hc] at h
      rcases List.mem_cons.mp h with h | h
      · exact Or.inr (by simp [h])
      · rcases mem_insert_sell_order h with h | h
        · exact Or.inl h
        · exact Or.inr (by simp [h])

theorem qsum_insert_buy_order (o : Order) :
    ∀ (l : List Order), qsum (_insert_buy_order o l) = o.quantity + qsum l
  | [] => by simp [_insert_buy_order, qsum]
  | e :: rest => by
    rw [_insert_buy_order]
    by_cases hc : e.price < o.price
    · simp [if_pos hc, qsum]
    · simp only [if_neg hc, qsum, List.map_cons, List.sum_cons]
      have := qsum_insert_buy_order o rest
      simp only [qsum] at this
      omega

theorem qsum_insert_sell_order (o : Order) :
    ∀ (l : List Order), qsum (_insert_sell_order o l) = o.quantity + qsum l
  | [] => by simp [_insert_sell_order, qsum]
  | e :: rest => by
    rw [_insert_sell_order]
    by_cases hc : o.price < e.price
    · simp [if_pos hc, qsum]
    · simp only [if_neg hc, qsum, List.map_cons, List.sum_cons]
      have := qsum_insert_sell_order o rest
      simp only [qsum] at this
      omega

/-- The service's buy-side scan insertion preserves the buy-book
invariant, provided the new order arrived no earlier than every resting
one: it is placed after every resting order of greater-or-equal price,
so equal-priced earlier arrivals keep priority. -/
theorem sortedBuyBook_insert (o : Order) :
    ∀ (l : List Order), sortedBuyBook l →
      (∀ e ∈ l, e.timestamp ≤ o.timestamp) →
      sortedBuyBook (_insert_buy_order o l)
  | [], _, _ => by simp [_insert_buy_order, sortedBuyBook]
  | e :: rest, hs, ht => by
    rw [sortedBuyBook, List.pairwise_cons] at hs
    rw [_insert_buy_order]
    by_cases hc : e.price < o.price
    · rw [if_pos hc]
      rw [sortedBuyBook, List.pairwise_cons]
      constructor
      · intro b hb
        rcases List.mem_cons.mp hb with hb | hb
        · subst hb; exact Or.inl hc
        · rcases hs.1 b hb with h | h
          · exact Or.inl (lt_trans h hc)
          · exact Or.inl (h.1 ▸ hc)
      · rw [List.pairwise_cons]
        exact ⟨hs.1, hs.2⟩
    · rw [if_neg hc]
      rw [sortedBuyBook, List.pairwise_cons]
      refine ⟨?_, ?_⟩
      · intro b hb
        rcases mem_insert_buy_order hb with hb | hb
        · subst hb
          rcases lt_or_eq_of_le (not_lt.mp hc) with h | h
          · exact Or.inl h
          · exact Or.inr ⟨h.symm, ht e (by simp)⟩
        · exact hs.1 b hb
      · exact sortedBuyBook_insert o rest hs.2
          (fun x hx => ht x (by simp [hx]))

/-- Symmetric preservation for the sell-side scan insertion. -/
theorem sortedSellBook_insert (o : Order) :
    ∀ (l : List Order), sortedSellBook l →
      (∀ e ∈ l, e.timestamp ≤ o.timestamp) →
      sortedSellBook (_insert_sell_order o l)
  | [], _, _ => by simp [_insert_sell_order, sortedSellBook]
  | e :: rest, hs, ht => by
    rw [sortedSellBook, List.pairwise_cons] at hs
    rw [_insert_sell_order]
    by_cases hc : o.price < e.price
    · rw [if_pos hc]
      rw [sortedSellBook, List.pairwise_cons]
      constructor
      · intro b hb
        rcases List.mem_cons.mp hb with hb | hb
        · subst hb; exact Or.inl hc
        · rcases hs.1 b hb with h | h
          · exact Or.inl (lt_trans hc h)
          · exact Or.inl (h.1 ▸ hc)
      · rw [List.pairwise_cons]
        exact ⟨hs.1, hs.2⟩
    · rw [if_neg hc]
      rw [sortedSellBook, List.pairwise_cons]
      refine ⟨?_, ?_⟩
      · intro b hb
        rcases mem_insert_sell_order hb with hb | hb
        · subst hb
          rcases lt_or_eq_of_le (not_lt.mp hc) with h | h
          · exact Or.inl h
          · exact Or.inr ⟨h, ht e (by simp)⟩
        · exact hs.1 b hb
      · exact sortedSellBook_insert o rest hs.2
          (fun x hx => ht x (by simp [hx]))

/-- On a list every element of which has price strictly below the new
order's, the scan insertion prepends. -/
theorem insert_buy_order_of_lt (o : Order) :
    ∀ (l : List Order), (∀ e ∈ l, e.price < o.price) →
      _insert_buy_order o l = o :: l
  | [], _ => by simp [_insert_buy_order]
  | e :: rest, h => by
    rw [_insert_buy_order, if_pos (h e (by simp))]

theorem insert_sell_order_of_lt (o : Order) :
    ∀ (l : List Order), (∀ e ∈ l, o.price < e.price) →
      _insert_sell_order o l = o :: l
  | [], _ => by simp [_insert_sell_order]
  | e :: rest, h => by
    rw [_insert_sell_order, if_pos (h e (by simp))]

/-- Python's `list.sort` is a stable sort; on a price-sorted buy book with
one new order appended it coincides with the service's scan insertion.
(The embedding uses `List.insertionSort`, which is stable with the
non-strict descending relation `rBuy`.) -/
theorem insertionSort_append_buy (o : Order) :
    ∀ (l : List Order), l.Pairwise rBuy →
      List.insertionSort rBuy (l ++ [o]) = _insert_buy_order o l
  | [], _ => by
    simp [List.insertionSort, List.orderedInsert, _insert_buy_order]
  | a :: l, h => by
    rw [List.pairwise_cons] at h
    have hal : ∀ e ∈ l, e.price ≤ a.price := fun e he => h.1 e he
    rw [List.cons_append, List.insertionSort,
      insertionSort_append_buy o l h.2]
    by_cases hc : a.price < o.price
    · have hall : ∀ e ∈ l, e.price < o.price :=
        fun e he => lt_of_le_of_lt (hal e he) hc
      rw [insert_buy_order_of_lt o l hall]
      rw [_insert_buy_order, if_pos hc]
      rw [List.orderedInsert, if_neg (by simpa [rBuy] using hc)]
      congr 1
      cases l with
      | nil => simp [List.orderedInsert]
      | cons e l' =>
        rw [List.orderedInsert, if_pos (show rBuy a e from hal e (by simp))]
    · rw [_insert_buy_order, if_neg hc]
      cases hl : _insert_buy_order o l with
      | nil =>
        cases l with
        | nil => simp [_insert_buy_order] at hl
        | cons e l' =>
          rw [_insert_buy_order] at hl
          by_cases he : e.price < o.price
          · rw [if_pos he] at hl; simp at hl
          · rw [if_neg he] at hl; simp at hl
      | cons x xs =>
        have hx : x = o ∨ x ∈ l := mem_insert_buy_order (by simp [hl])
        have hrx : rBuy a x := by
          rcases hx with hx | hx
          · subst hx; exact not_lt.mp hc
          · exact hal x hx
        rw [List.orderedInsert, if_pos hrx]

/-- The sell-side analogue. -/
theorem insertionSort_append_sell (o : Order) :
    ∀ (l : List Order), l.Pairwise rSell →
      List.insertionSort rSell (l ++ [o]) = _insert_sell_order o l
  | [], _ => by
    simp [List.insertionSort, List.orderedInsert, _insert_sell_order]
  | a :: l, h => by
    rw [List.pairwise_cons] at h
    have hal : ∀ e ∈ l, a.price ≤ e.price := fun e he => h.1 e he
    rw [List.cons_append, List.insertionSort,
      insertionSort_append_sell o l h.2]
    by_cases hc : o.price < a.price
    · have hall : ∀ e ∈ l, o.price < e.price :=
        fun e he => lt_of_lt_of_le hc (hal e he)
      rw [insert_sell_order_of_lt o l hall]
      rw [_insert_sell_order, if_pos hc]
      rw [List.orderedInsert, if_neg (by simpa [rSell] using hc)]
      congr 1
      cases l with
      | nil => simp [List.orderedInsert]
      | cons e l' =>
        rw [List.orderedInsert, if_pos (show rSell a e from hal e (by simp))]
    · rw [_insert_sell_order, if_neg hc]
      cases hl : _insert_sell_order o l with
      | nil =>
        cases l with
        | nil => simp [_insert_sell_order] at hl
        | cons e l' =>
          rw [_insert_sell_order] at hl
          by_cases he : o.price < e.price
          · rw [if_pos he] at hl; simp at hl
          · rw [if_neg he] at hl; simp at hl
      | cons x xs =>
        have hx : x = o ∨ x ∈ l := mem_insert_sell_order (by simp [hl])
        have hrx : rSell a x := by
          rcases hx with hx | hx
          · subst hx; exact not_lt.mp hc
          · exact hal x hx
        rw [List.orderedInsert, if_pos hrx]

/-- The buy-book invariant implies the weaker price-descending relation
the legacy sort uses. -/
theorem pairwise_rBuy_of_sorted {l : List Order} (h : sortedBuyBook l) :
    l.Pairwise rBuy := by
  exact h.imp (fun {a b} hab => by
    rcases hab with hab | hab
    · exact le_of_lt hab
    · exact le_of_eq hab.1.symm)

theorem pairwise_rSell_of_sorted {l : List Order} (h : sortedSellBook l) :
    l.Pairwise rSell := by
  exact h.imp (fun {a b} hab => by
    rcases hab with hab | hab
    · exact le_of_lt hab
    · exact le_of_eq hab.1)

/-- Sorting does not change the total book quantity. -/
theorem qsum_insertionSort (r : Order → Order → Prop) [DecidableRel r]
    (l : List Order) : qsum (List.insertionSort r l) = qsum l :=
  ((List.perm_insertionSort r l).map Order.quantity).sum_eq

theorem qsum_append (l₁ l₂ : List Order) :
    qsum (l₁ ++ l₂) = qsum l₁ + qsum l₂ := by
  simp [qsum]

/-- The recursive returns computation agrees with its zipWith form. -/
theorem pct_changes_eq_zipWith :
    ∀ l : List ℚ, pct_changes l = List.zipWith (fun a b => (b - a) / a) l l.tail
  | [] => rfl
  | [a] => rfl
  | a :: b :: rest => by
    rw [pct_changes]
    simp only [List.tail_cons, List.zipWith_cons_cons]
    rw [pct_changes_eq_zipWith (b :: rest)]
    simp

theorem length_pct_changes : ∀ l : List ℚ, (pct_changes l).length = l.length - 1
  | [] => rfl
  | [a] => rfl
  | a :: b :: rest => by
    rw [pct_changes]
    simp only [List.length_cons, length_pct_changes (b :: rest)]
    simp

/-- Behaviour of the shared history-append helper: within the cap it is a
plain append; once the appended buffer exceeds the cap it keeps exactly
the trailing `cap / 2` entries. -/
theorem appendHalved_spec (cap : ℕ) (l : List α) (x : α) :
    (cap ≤ l.length →
      (appendHalved cap l x).length = cap / 2
      ∧ (appendHalved cap l x).IsSuffix (l ++ [x]))
    ∧ (l.length < cap → appendHalved cap l x = l ++ [x]) := by
  constructor
  · intro h
    have hlen : (l ++ [x]).length = l.length + 1 := by simp
    have hcond : cap < (l ++ [x]).length := by omega
    rw [appendHalved]
    simp only [if_pos hcond]
    constructor
    · rw [List.length_drop]
      omega
    · exact List.drop_suffix _ _
  · intro h
    have hlen : (l ++ [x]).length = l.length + 1 := by simp
    have hcond : ¬ cap < (l ++ [x]).length := by omega
    rw [appendHalved]
    simp only [if_neg hcond]

/-! ## Unfolding lemmas for the two dispatch wrappers -/

theorem add_order_buy_eq (s : OrderBook) (o : Order) (τ : ℚ)
    (ho : o.order_type = OrderType.BUY) :
    s.add_order o τ =
      ((matchWalk (buyCross o) (legacyBuyTrade o τ) o.quantity
          s.next_trade_id s.current_price s.sell_orders).trades,
       { s with
         current_price := (matchWalk (buyCross o) (legacyBuyTrade o τ) o.quantity
            s.next_trade_id s.current_price s.sell_orders).cur
         sell_orders := (matchWalk (buyCross o) (legacyBuyTrade o τ) o.quantity
            s.next_trade_id s.current_price s.sell_orders).book
         buy_orders := if 0 < (matchWalk (buyCross o) (legacyBuyTrade o τ)
            o.quantity s.next_trade_id s.current_price s.sell_orders).rem then
              List.insertionSort rBuy (s.buy_orders ++
                [{ o with quantity := (matchWalk (buyCross o) (legacyBuyTrade o τ)
                  o.quantity s.next_trade_id s.current_price s.sell_orders).rem }])
            else s.buy_orders
         trades := s.trades ++ (matchWalk (buyCross o) (legacyBuyTrade o τ)
            o.quantity s.next_trade_id s.current_price s.sell_orders).trades
         next_trade_id := (matchWalk (buyCross o) (legacyBuyTrade o τ) o.quantity
            s.next_trade_id s.current_price s.sell_orders).tid }) := by
  unfold OrderBook.add_order
  rw [ho]

theorem add_order_sell_eq (s : OrderBook) (o : Order) (τ : ℚ)
    (ho : o.order_type = OrderType.SELL) :
    s.add_order o τ =
      ((matchWalk (sellCross o) (legacySellTrade o τ) o.quantity
          s.next_trade_id s.current_price s.buy_orders).trades,
       { s with
         current_price := (matchWalk (sellCross o) (legacySellTrade o τ) o.quantity
            s.next_trade_id s.current_price s.buy_orders).cur
         buy_orders := (matchWalk (sellCross o) (legacySellTrade o τ) o.quantity
            s.next_trade_id s.current_price s.buy_orders).book
         sell_orders := if 0 < (matchWalk (sellCross o) (legacySellTrade o τ)
            o.quantity s.next_trade_id s.current_price s.buy_orders).rem then
              List.insertionSort rSell (s.sell_orders ++
                [{ o with quantity := (matchWalk (sellCross o) (legacySellTrade o τ)
                  o.quantity s.next_trade_id s.current_price s.buy_orders).rem }])
            else s.sell_orders
         trades := s.trades ++ (matchWalk (sellCross o) (legacySellTrade o τ)
            o.quantity s.next_trade_id s.current_price s.buy_orders).trades
         next_trade_id := (matchWalk (sellCross o) (legacySellTrade o τ) o.quantity
            s.next_trade_id s.current_price s.buy_orders).tid }) := by
  unfold OrderBook.add_order
  rw [ho]

theorem svc_add_order_buy_eq (v : OrderBookService) (o : Order) (τ : ℚ)
    (ho : o.order_type = OrderType.BUY) :
    v.add_order o τ =
      ((_process_buy_order v o τ).1,
       { (_process_buy_order v o τ).2 with
         current_price := (((_process_buy_order v o τ).1.getLast?.map
            Trade.price).getD (_process_buy_order v o τ).2.current_price) }) := by
  unfold OrderBookService.add_order
  rw [ho]

theorem svc_add_order_sell_eq (v : OrderBookService) (o : Order) (τ : ℚ)
    (ho : o.order_type = OrderType.SELL) :
    v.add_order o τ =
      ((_process_sell_order v o τ).1,
       { (_process_sell_order v o τ).2 with
         current_price := (((_process_sell_order v o τ).1.getLast?.map
            Trade.price).getD (_process_sell_order v o τ).2.current_price) }) := by
  unfold OrderBookService.add_order
  rw [ho]

/-! ## Claim theorems -/

/-- C4: starting from an empty book at initial price 100, submitting
Sell 10@99, Sell 10@101 and then Buy 15@100 yields — on the legacy engine
and on the service engine alike — exactly one trade of price 99 and
quantity 10; the remaining Buy quantity 5 rests in the buy book at price
100; the sell book holds only the 10@101 order; and afterwards the best
bid is 100, the best ask is 101 and the spread is 1. -/
theorem c4_example_scenario :
    c4_legacy.1.map (fun t => (t.price, t.quantity)) = [(99, 10)]
    ∧ c4_legacy.2.buy_orders = [⟨3, 100, 5, OrderType.BUY, 3, 3⟩]
    ∧ c4_legacy.2.sell_orders = [c4_o2]
    ∧ c4_legacy.2.get_best_bid = some 100
    ∧ c4_legacy.2.get_best_ask = some 101
    ∧ c4_legacy.2.get_spread = some 1
    ∧ c4_service.1.map (fun t => (t.price, t.quantity)) = [(99, 10)]
    ∧ c4_service.2.buy_orders = [⟨3, 100, 5, OrderType.BUY, 3, 3⟩]
    ∧ c4_service.2.sell_orders = [c4_o2]
    ∧ c4_service.2.get_best_bid = some 100
    ∧ c4_service.2.get_best_ask = some 101
    ∧ c4_service.2.get_spread = some 1 := by
  norm_num [c4_legacy, c4_service, c4_o1, c4_o2, c4_o3, OrderBook.init,
    OrderBook.add_order, OrderBookService.init, OrderBookService.add_order,
    _process_buy_order, _process_sell_order, _insert_buy_order,
    _insert_sell_order, appendTradeCapped, matchWalk, buyCross, sellCross,
    legacyBuyTrade, legacySellTrade, serviceBuyTrade, serviceSellTrade,
    Trade.create_from_orders, List.insertionSort, List.orderedInsert, rBuy,
    rSell, OrderBook.get_best_bid, OrderBook.get_best_ask,
    OrderBook.get_spread, OrderBookService.get_best_bid,
    OrderBookService.get_best_ask, OrderBookService.get_spread]

/-- C1, counterexample: in `OrderBookService`, an incoming SELL 10@99
crossing a resting BUY 10@101 produces a trade priced 99 — the INCOMING
order's price — although the resting buy-book order's price is 101.  The
claim, which demands the resting order's price for every trade, is false
of the service engine. -/
theorem c1_resting_price_cex :
    (c1_state.add_order c1_incoming 2).1 = [⟨1, 99, 10, 0, 1, 2⟩]
    ∧ c1_state.buy_orders.map Order.price = [101]
    ∧ ¬ (∀ t ∈ (c1_state.add_order c1_incoming 2).1,
          t.price ∈ c1_state.buy_orders.map Order.price) := by
  have h : (c1_state.add_order c1_incoming 2).1 = [⟨1, 99, 10, 0, 1, 2⟩] := by
    norm_num [c1_state, c1_incoming, OrderBookService.init,
      OrderBookService.add_order, _process_sell_order, matchWalk, sellCross,
      serviceSellTrade, Trade.create_from_orders, appendTradeCapped,
      _insert_sell_order]
  refine ⟨h, by norm_num [c1_state, OrderBookService.init], ?_⟩
  intro hall
  have hmem := hall ⟨1, 99, 10, 0, 1, 2⟩ (h ▸ List.mem_singleton.mpr rfl)
  norm_num [c1_state, OrderBookService.init] at hmem

/-- C1, amended: every trade of the legacy `OrderBook.add_order` is priced
at the matched RESTING order's price (the sell-book order for an incoming
buy, the buy-book order for an incoming sell).  In `OrderBookService` this
holds only for incoming BUY orders; for an incoming SELL order every
emitted trade is priced at the INCOMING order's price, because
`Trade.create_from_orders` always prices trades at the sell side. -/
theorem c1_trade_price_amended :
    (∀ (s : OrderBook) (o : Order) (τ : ℚ), ∀ t ∈ (s.add_order o τ).1,
      (o.order_type = OrderType.BUY → t.price ∈ s.sell_orders.map Order.price)
      ∧ (o.order_type = OrderType.SELL → t.price ∈ s.buy_orders.map Order.price))
    ∧ (∀ (v : OrderBookService) (o : Order) (τ : ℚ),
        o.order_type = OrderType.BUY →
        ∀ t ∈ (v.add_order o τ).1, t.price ∈ v.sell_orders.map Order.price)
    ∧ (∀ (v : OrderBookService) (o : Order) (τ : ℚ),
        o.order_type = OrderType.SELL →
        ∀ t ∈ (v.add_order o τ).1, t.price = o.price) := by
  refine ⟨?_, ?_, ?_⟩
  · intro s o τ t ht
    cases ho : o.order_type with
    | BUY =>
      rw [add_order_buy_eq s o τ ho] at ht
      refine ⟨fun _ => ?_, fun hs => by simp at hs⟩
      obtain ⟨r, hr, _, tid', tq, rfl⟩ :=
        matchWalk_trades_from_book _ _ _ _ _ _ t ht
      exact List.mem_map.mpr ⟨r, hr, rfl⟩
    | SELL =>
      rw [add_order_sell_eq s o τ ho] at ht
      refine ⟨fun hs => by simp at hs, fun _ => ?_⟩
      obtain ⟨r, hr, _, tid', tq, rfl⟩ :=
        matchWalk_trades_from_book _ _ _ _ _ _ t ht
      exact List.mem_map.mpr ⟨r, hr, rfl⟩
  · intro v o τ ho t ht
    rw [svc_add_order_buy_eq v o τ ho] at ht
    simp only [_process_buy_order] at ht
    obtain ⟨r, hr, _, tid', tq, rfl⟩ :=
      matchWalk_trades_from_book _ _ _ _ _ _ t ht
    exact List.mem_map.mpr ⟨r, hr, rfl⟩
  · intro v o τ ho t ht
    rw [svc_add_order_sell_eq v o τ ho] at ht
    simp only [_process_sell_order] at ht
    obtain ⟨r, hr, _, tid', tq, rfl⟩ :=
      matchWalk_trades_from_book _ _ _ _ _ _ t ht
    rfl

/-- Witness for the amended C1: after Sell 10@99 rests, an incoming
Buy 15@100 produces a trade whose price 99 is among the pre-match resting
sell prices. -/
theorem c1_trade_price_amended_witness :
    ((⟨1, 99, 10, 3, 1, 3⟩ : Trade).price ∈
      (((OrderBook.init 100).add_order c4_o1 1).2).sell_orders.map
        Order.price) := by
  have hmem : (⟨1, 99, 10, 3, 1, 3⟩ : Trade)
      ∈ ((((OrderBook.init 100).add_order c4_o1 1).2).add_order c4_o3 3).1 := by
    norm_num [OrderBook.init, OrderBook.add_order, c4_o1, c4_o3, matchWalk,
      buyCross, sellCross, legacyBuyTrade, legacySellTrade,
      List.insertionSort, List.orderedInsert, rBuy, rSell]
  exact (c1_trade_price_amended.1
    (((OrderBook.init 100).add_order c4_o1 1).2) c4_o3 3
    ⟨1, 99, 10, 3, 1, 3⟩ hmem).1 rfl

/-- C2, counterexample: the legacy `Order` dataclass performs no
validation, and `OrderBook.add_order` accepts an order with price −1 and
quantity 5 without any error: it returns normally (no trades) and MUTATES
the sell book by resting the invalid order.  The claim that such a call
fails with `InvalidOrder` and leaves both books untouched is false of
`src/order_book.py`. -/
theorem c2_invalid_order_cex :
    ((OrderBook.init 100).add_order c2_bad 0).1 = []
    ∧ ((OrderBook.init 100).add_order c2_bad 0).2.sell_orders = [c2_bad]
    ∧ (OrderBook.init 100).sell_orders = [] := by
  norm_num [OrderBook.init, OrderBook.add_order, c2_bad, matchWalk,
    sellCross, legacySellTrade, List.insertionSort, List.orderedInsert, rSell]

/-- C2, amended: the price/quantity validation lives in the simexchange
`Order` constructor, not in `addOrder`: `Order.__post_init__` raises
exactly when price ≤ 0, quantity ≤ 0 or the agent id is negative, so no
such order can reach `OrderBookService.add_order`; the legacy
`OrderBook.add_order` performs no validation at all, and an order with
non-positive price or quantity mutates the book without error (see the
counterexample). -/
theorem c2_validation_amended (id : ℕ) (price : ℚ) (quantity : ℤ)
    (order_type : OrderType) (agent_id : ℤ) (timestamp : ℚ) :
    (Order.mk_checked id price quantity order_type agent_id timestamp).isSome
      ↔ (0 < price ∧ 0 < quantity ∧ 0 ≤ agent_id) := by
  rw [Order.mk_checked]
  split_ifs with h1 h2 h3 <;> simp <;> push_neg at * <;>
    try exact fun hp => absurd h1 (not_le.mpr hp)
  · intro hp hq; exact absurd h2 (not_le.mpr hq)
  · intro hp hq; omega
  · exact ⟨h1, h2, h3⟩

/-- Witness for the amended C2: the constructor check evaluated at the
invalid order of the counterexample. -/
theorem c2_validation_amended_witness :
    ¬ (Order.mk_checked 1 (-1) 5 OrderType.SELL 0 0).isSome := by
  rw [c2_validation_amended 1 (-1) 5 OrderType.SELL 0 0]
  intro h
  have := h.1
  norm_num at this

/-- C8, counterexample: `set_avg_spread_cycles(0)` silently stores the
clamped value 1 — the stored setting IS mutated by the out-of-range call
and no error is raised; the other setters behave identically (5000 ↦ 1000
for the service spread window; cycles 0 ↦ 1 and amount −5 ↦ 0 for the
injection settings).  The claim of rejection-without-mutation is false. -/
theorem c8_reject_cex :
    (set_avg_spread_cycles c8_legacy_defaults 0).avg_spread_cycles = 1
    ∧ set_avg_spread_cycles c8_legacy_defaults 0 ≠ c8_legacy_defaults
    ∧ (svc_set_avg_spread_cycles c8_svc_defaults 5000).avg_spread_cycles = 1000
    ∧ (svc_set_balance_increase_settings c8_svc_defaults 0 (-5)) = ⟨1, 0, 50⟩
    ∧ (set_balance_increase_settings c8_legacy_defaults 20000 (-1))
        = ⟨50, 10000, 0⟩ := by
  have hq5 : max (0:ℚ) (-5) = 0 := by
    rw [max_eq_left]
    norm_num
  have hq1 : max (0:ℚ) (-1) = 0 := by
    rw [max_eq_left]
    norm_num
  have hz0 : max 1 (min (0:ℤ) 10000) = 1 := by omega
  have hz2 : max 1 (min (20000:ℤ) 10000) = 10000 := by omega
  refine ⟨?_, ?_, ?_, ?_, ?_⟩
  · simp [set_avg_spread_cycles, c8_legacy_defaults]
  · intro h
    have := congrArg SimSettings.avg_spread_cycles h
    simp [set_avg_spread_cycles, c8_legacy_defaults] at this
  · simp [svc_set_avg_spread_cycles, c8_svc_defaults]
  · simp [svc_set_balance_increase_settings, c8_svc_defaults, hz0, hq5]
  · simp [set_balance_increase_settings, c8_legacy_defaults, hz2, hq1]

/-- C8, amended: all four setters clamp instead of rejecting: an in-range
value is stored as given, a value below the range is stored as the lower
bound, one above as the upper bound, a negative amount as 0, and the
remaining settings are untouched.  No call ever fails and out-of-range
calls do mutate the stored settings. -/
theorem c8_clamp_amended (s : SimSettings) (c : SimulationConfig)
    (cy : ℤ) (am : ℚ) :
    ((1 ≤ cy → cy ≤ 1000 → (set_avg_spread_cycles s cy).avg_spread_cycles = cy)
    ∧ (cy < 1 → (set_avg_spread_cycles s cy).avg_spread_cycles = 1)
    ∧ (1000 < cy → (set_avg_spread_cycles s cy).avg_spread_cycles = 1000)
    ∧ (set_avg_spread_cycles s cy).balance_increase_cycles
        = s.balance_increase_cycles
    ∧ (set_avg_spread_cycles s cy).balance_increase_amount
        = s.balance_increase_amount)
    ∧ ((1 ≤ cy → cy ≤ 10000 →
        (set_balance_increase_settings s cy am).balance_increase_cycles = cy)
    ∧ (cy < 1 →
        (set_balance_increase_settings s cy am).balance_increase_cycles = 1)
    ∧ (10000 < cy →
        (set_balance_increase_settings s cy am).balance_increase_cycles = 10000)
    ∧ (0 ≤ am →
        (set_balance_increase_settings s cy am).balance_increase_amount = am)
    ∧ (am < 0 →
        (set_balance_increase_settings s cy am).balance_increase_amount = 0)
    ∧ (set_balance_increase_settings s cy am).avg_spread_cycles
        = s.avg_spread_cycles)
    ∧ ((1 ≤ cy → cy ≤ 1000 →
        (svc_set_avg_spread_cycles c cy).avg_spread_cycles = cy)
    ∧ (cy < 1 → (svc_set_avg_spread_cycles c cy).avg_spread_cycles = 1)
    ∧ (1000 < cy → (svc_set_avg_spread_cycles c cy).avg_spread_cycles = 1000))
    ∧ ((1 ≤ cy → cy ≤ 10000 →
        (svc_set_balance_increase_settings c cy am).balance_increase_cycles = cy)
    ∧ (cy < 1 →
        (svc_set_balance_increase_settings c cy am).balance_increase_cycles = 1)
    ∧ (10000 < cy →
        (svc_set_balance_increase_settings c cy am).balance_increase_cycles
          = 10000)
    ∧ (0 ≤ am →
        (svc_set_balance_increase_settings c cy am).balance_increase_amount = am)
    ∧ (am < 0 →
        (svc_set_balance_increase_settings c cy am).balance_increase_amount
          = 0)) := by
  refine ⟨⟨?_, ?_, ?_, rfl, rfl⟩, ⟨?_, ?_, ?_, ?_, ?_, rfl⟩,
    ⟨?_, ?_, ?_⟩, ⟨?_, ?_, ?_, ?_, ?_⟩⟩ <;> intros <;>
    simp only [set_avg_spread_cycles, set_balance_increase_settings,
      svc_set_avg_spread_cycles, svc_set_balance_increase_settings] <;>
    first
      | omega
      | (apply max_eq_right; assumption)
      | (apply max_eq_left; linarith)

/-- Witness for the amended C8: an in-range call stores the given value,
an out-of-range call stores the clamped bound. -/
theorem c8_clamp_amended_witness :
    (set_avg_spread_cycles c8_legacy_defaults 70).avg_spread_cycles = 70
    ∧ SimSettings.balance_increase_cycles
        (set_balance_increase_settings c8_legacy_defaults 20000 3) = 10000 := by
  constructor
  · exact (c8_clamp_amended c8_legacy_defaults c8_svc_defaults 70 3).1.1
      (by norm_num) (by norm_num)
  · exact (c8_clamp_amended c8_legacy_defaults c8_svc_defaults
      20000 3).2.1.2.2.1 (by norm_num)

/-- C10: after `add_order` the engine's current price is the last emitted
trade's price, or unchanged when no trade was emitted — on both engines
(the legacy engine assigns it inside the matching loop, the service engine
once from `new_trades[-1]`); `initial_price` and `next_order_id` are left
untouched by the call.  The read-only queries (`get_best_bid`,
`get_best_ask`, `get_spread`, `get_order_book_data`) contain no assignment
in the source and are accordingly embedded as pure functions of the state,
so they cannot change the current price or either book. -/
theorem c10_price_update (s : OrderBook) (v : OrderBookService) (o : Order)
    (τ : ℚ) :
    (s.add_order o τ).2.current_price
      = (((s.add_order o τ).1.getLast?).map Trade.price).getD s.current_price
    ∧ (s.add_order o τ).2.initial_price = s.initial_price
    ∧ (s.add_order o τ).2.next_order_id = s.next_order_id
    ∧ (v.add_order o τ).2.current_price
      = (((v.add_order o τ).1.getLast?).map Trade.price).getD v.current_price
    ∧ (v.add_order o τ).2.initial_price = v.initial_price
    ∧ (v.add_order o τ).2.next_order_id = v.next_order_id := by
  cases ho : o.order_type with
  | BUY =>
    rw [add_order_buy_eq s o τ ho, svc_add_order_buy_eq v o τ ho]
    exact ⟨matchWalk_cur _ _ _ _ _ _, rfl, rfl, rfl, rfl, rfl⟩
  | SELL =>
    rw [add_order_sell_eq s o τ ho, svc_add_order_sell_eq v o τ ho]
    exact ⟨matchWalk_cur _ _ _ _ _ _, rfl, rfl, rfl, rfl, rfl⟩

/-- C6, counterexample: the legacy `TradingSimulator._update_statistics`
trims an overfull price history to the trailing FULL cap of 1000 entries,
not to the trailing half (500).  With a 1001-entry history the appended
1002 entries are cut to 1000. -/
theorem c6_trailing_half_cex :
    (_update_statistics c6_stats 100 none []).price_history.length = 1000
    ∧ (1000 : ℕ) ≠ 500 := by
  constructor
  · have hcond : 1000 < (c6_stats.price_history ++ [(100 : ℚ)]).length := by
      simp only [c6_stats, List.length_append, List.length_replicate,
        List.length_singleton]
      norm_num
    rw [_update_statistics.eq_def]
    simp only [if_pos hcond]
    rw [List.length_drop]
    simp only [c6_stats, List.length_append, List.length_replicate,
      List.length_singleton]
  · norm_num

/-- C6, amended: the four `SimulationService.update_*` buffers are indeed
cut to their trailing `max_history_size / 2` entries when an append
overflows the cap (and are plain appends below it); but the four legacy
`TradingSimulator` buffers are instead cut to the trailing FULL cap of
1000 entries when the price history overflows. -/
theorem c6_trailing_half_amended (cap : ℕ) (lq sq : List ℚ) (lz : List ℤ)
    (ln : List ℕ) (x y : ℚ) (z : ℤ) (n : ℕ) (st : SimStats) (cp : ℚ)
    (sp : Option ℚ) (trs : List Trade) :
    (cap ≤ lq.length →
      (update_price cap lq x).length = cap / 2
      ∧ (update_price cap lq x).IsSuffix (lq ++ [x]))
    ∧ (lq.length < cap → update_price cap lq x = lq ++ [x])
    ∧ (cap ≤ lz.length →
      (update_volume cap lz z).length = cap / 2
      ∧ (update_volume cap lz z).IsSuffix (lz ++ [z]))
    ∧ (lz.length < cap → update_volume cap lz z = lz ++ [z])
    ∧ (cap ≤ ln.length →
      (update_trade_count cap ln n).length = cap / 2
      ∧ (update_trade_count cap ln n).IsSuffix (ln ++ [n]))
    ∧ (ln.length < cap → update_trade_count cap ln n = ln ++ [n])
    ∧ (cap ≤ sq.length →
      (update_spread cap sq y).length = cap / 2
      ∧ (update_spread cap sq y).IsSuffix (sq ++ [y]))
    ∧ (sq.length < cap → update_spread cap sq y = sq ++ [y])
    ∧ (1000 ≤ st.price_history.length →
      (_update_statistics st cp sp trs).price_history.length = 1000
      ∧ (_update_statistics st cp sp trs).price_history.IsSuffix
          (st.price_history ++ [cp])) := by
  refine ⟨(appendHalved_spec cap lq x).1, (appendHalved_spec cap lq x).2,
    (appendHalved_spec cap lz z).1, (appendHalved_spec cap lz z).2,
    (appendHalved_spec cap ln n).1, (appendHalved_spec cap ln n).2,
    (appendHalved_spec cap sq y).1, (appendHalved_spec cap sq y).2, ?_⟩
  intro h
  have hlen : (st.price_history ++ [cp]).length = st.price_history.length + 1 := by
    simp
  have hcond : 1000 < (st.price_history ++ [cp]).length := by omega
  rw [_update_statistics.eq_def]
  simp only [if_pos hcond]
  constructor
  · rw [List.length_drop]
    omega
  · exact List.drop_suffix _ _

/-- Witness for the amended C6: a two-entry buffer at cap 2 is cut to its
trailing half (one entry) by the next append, and a legacy 1000-entry
history is cut to 1000. -/
theorem c6_trailing_half_amended_witness :
    2 ≤ ([(1 : ℚ), 2]).length
    ∧ (update_price 2 [1, 2] 3).length = 2 / 2
    ∧ 1000 ≤ (List.replicate 1000 (100 : ℚ)).length
    ∧ (_update_statistics ⟨List.replicate 1000 100, [], [], []⟩ 7 none
        []).price_history.length = 1000 := by
  have hrep : (List.replicate 1000 (100 : ℚ)).length = 1000 :=
    List.length_replicate _ _
  refine ⟨by norm_num, ?_, by rw [hrep], ?_⟩
  · exact ((c6_trailing_half_amended 2 [1, 2] [] [] [] 3 0 0 0
      ⟨[], [], [], []⟩ 0 none []).1 (by norm_num)).1
  · exact ((c6_trailing_half_amended 2 [1, 2] [] [] [] 3 0 0 0
      ⟨List.replicate 1000 100, [], [], []⟩ 7 none
      []).2.2.2.2.2.2.2.2 (by rw [hrep])).1

/-- C7, counterexample: the legacy `TradingSimulator._calculate_volatility`
is NOT the doubled mean absolute return over the last 5 prices: on the
price history [100, 102] it computes the standard deviation of the single
return (which is 0) and clamps it, returning 0.005, while the claimed
formula (mean |return| × 2, clamped — which `SimulationService` does
implement) gives 0.04. -/
theorem c7_volatility_cex :
    _calculate_volatility [100, 102] = 1/200
    ∧ volatility_spec [100, 102] = 1/25
    ∧ ((1 : ℝ)/200) ≠ ((1 : ℝ)/25) := by
  have hpct : pct_changes [(100 : ℚ), 102] = [1/50] := by
    norm_num [pct_changes]
  refine ⟨?_, ?_, by norm_num⟩
  · simp only [_calculate_volatility]
    norm_num [hpct, Real.sqrt_zero, min_def, max_def]
  · have habs : |(1 : ℚ)/50| = 1/50 := abs_of_nonneg (by norm_num)
    simp only [volatility_spec]
    norm_num [List.zipWith, habs, min_def, max_def]

/-- C7, amended: the claim's formula is exactly what
`SimulationService.calculate_volatility` computes: for a history of at
least two prices it equals the specification formula (mean absolute
per-step return over at most the last 5 prices, doubled, clamped into
[0.005, 0.05]), and the fixed 0.01 when the skip flag is set.  The legacy
`TradingSimulator._calculate_volatility`, by contrast, uses the standard
deviation of the returns over at most the last 10 prices with the same
clamp and no fast-mode flag, and disagrees with the formula (see the
counterexample). -/
theorem c7_volatility_amended (skip : Bool) (ph : List ℚ)
    (h2 : 2 ≤ ph.length) :
    calculate_volatility skip ph = if skip then 1/100 else volatility_spec ph := by
  have hnot : ¬ ph.length < 2 := by omega
  cases skip with
  | true => simp [calculate_volatility, hnot]
  | false =>
    simp only [calculate_volatility, if_neg hnot, Bool.false_eq_true,
      if_false]
    have hrec : (ph.drop (ph.length - 5)).length = ph.length - (ph.length - 5) :=
      List.length_drop _ _
    rw [if_neg (by omega : ¬ (ph.drop (ph.length - 5)).length < 2)]
    have hne : pct_changes (ph.drop (ph.length - 5)) ≠ [] := by
      intro hnil
      have hl := length_pct_changes (ph.drop (ph.length - 5))
      rw [hnil] at hl
      simp at hl
      omega
    rw [if_neg hne]
    rw [volatility_spec, ← pct_changes_eq_zipWith]
    rw [mul_comm, min_comm]

/-- Witness for the amended C7: the service volatility on [100, 102]
equals the specification formula there. -/
theorem c7_volatility_amended_witness :
    2 ≤ ([(100 : ℚ), 102]).length
    ∧ calculate_volatility false [100, 102]
        = if false then 1/100 else volatility_spec [100, 102] :=
  ⟨by norm_num, c7_volatility_amended false [100, 102] (by norm_num)⟩

/-- C5: `add_order` preserves price-time priority of both books, on both
engines: if both books satisfy the sort invariant (buy side price
descending, sell side price ascending, equal prices ordered by arrival
timestamp) and the incoming order arrives no earlier than every resting
order (timestamps are taken from the monotone `time.time()`), then both
books still satisfy the invariant after the call.  Matching only reduces
quantities and removes filled orders (a sublist operation); the remainder
is inserted after all equal-priced resting orders by both the service's
scan insertion and the legacy append-plus-stable-sort. -/
theorem c5_price_time_priority (s : OrderBook) (v : OrderBookService)
    (o : Order) (τ : ℚ)
    (hsb : sortedBuyBook s.buy_orders) (hss : sortedSellBook s.sell_orders)
    (hvb : sortedBuyBook v.buy_orders) (hvs : sortedSellBook v.sell_orders)
    (htsb : ∀ e ∈ s.buy_orders, e.timestamp ≤ o.timestamp)
    (htss : ∀ e ∈ s.sell_orders, e.timestamp ≤ o.timestamp)
    (htvb : ∀ e ∈ v.buy_orders, e.timestamp ≤ o.timestamp)
    (htvs : ∀ e ∈ v.sell_orders, e.timestamp ≤ o.timestamp) :
    sortedBuyBook (s.add_order o τ).2.buy_orders
    ∧ sortedSellBook (s.add_order o τ).2.sell_orders
    ∧ sortedBuyBook (v.add_order o τ).2.buy_orders
    ∧ sortedSellBook (v.add_order o τ).2.sell_orders := by
  cases ho : o.order_type with
  | BUY =>
    rw [add_order_buy_eq s o τ ho, svc_add_order_buy_eq v o τ ho]
    simp only [_process_buy_order]
    refine ⟨?_, ?_, ?_, ?_⟩
    · dsimp only
      by_cases hr : 0 < (matchWalk (buyCross o) (legacyBuyTrade o τ)
          o.quantity s.next_trade_id s.current_price s.sell_orders).rem
      · rw [if_pos hr,
          insertionSort_append_buy _ _ (pairwise_rBuy_of_sorted hsb)]
        exact sortedBuyBook_insert _ _ hsb htsb
      · rw [if_neg hr]
        exact hsb
    · exact sortedSellBook_matchWalk _ _ _ _ _ _ hss
    · dsimp only
      by_cases hr : 0 < (matchWalk (buyCross o) (serviceBuyTrade o τ)
          o.quantity v.next_trade_id v.current_price v.sell_orders).rem
      · rw [if_pos hr]
        exact sortedBuyBook_insert _ _ hvb htvb
      · rw [if_neg hr]
        exact hvb
    · exact sortedSellBook_matchWalk _ _ _ _ _ _ hvs
  | SELL =>
    rw [add_order_sell_eq s o τ ho, svc_add_order_sell_eq v o τ ho]
    simp only [_process_sell_order]
    refine ⟨?_, ?_, ?_, ?_⟩
    · exact sortedBuyBook_matchWalk _ _ _ _ _ _ hsb
    · dsimp only
      by_cases hr : 0 < (matchWalk (sellCross o) (legacySellTrade o τ)
          o.quantity s.next_trade_id s.current_price s.buy_orders).rem
      · rw [if_pos hr,
          insertionSort_append_sell _ _ (pairwise_rSell_of_sorted hss)]
        exact sortedSellBook_insert _ _ hss htss
      · rw [if_neg hr]
        exact hss
    · exact sortedBuyBook_matchWalk _ _ _ _ _ _ hvb
    · dsimp only
      by_cases hr : 0 < (matchWalk (sellCross o) (serviceSellTrade o τ)
          o.quantity v.next_trade_id v.current_price v.buy_orders).rem
      · rw [if_pos hr]
        exact sortedSellBook_insert _ _ hvs htvs
      · rw [if_neg hr]
        exact hvs

/-- Witness for C5: the invariant-preservation theorem applied to empty
books receiving a first BUY order. -/
theorem c5_price_time_priority_witness :
    sortedBuyBook (((OrderBook.init 100).add_order c4_o3 3)).2.buy_orders
    ∧ sortedSellBook (((OrderBookService.init 100 5000).add_order c4_o3
        3)).2.sell_orders := by
  have h := c5_price_time_priority (OrderBook.init 100)
    (OrderBookService.init 100 5000) c4_o3 3
    (by simp [OrderBook.init, sortedBuyBook])
    (by simp [OrderBook.init, sortedSellBook])
    (by simp [OrderBookService.init, sortedBuyBook])
    (by simp [OrderBookService.init, sortedSellBook])
    (by simp [OrderBook.init]) (by simp [OrderBook.init])
    (by simp [OrderBookService.init]) (by simp [OrderBookService.init])
  exact ⟨h.1, h.2.2.2⟩

/-- C9: quantity accounting of `add_order` on both engines, for a valid
(positive-quantity) incoming order and books of positive resting
quantities.  The incoming quantity plus the same-side book total before
the call equals the total traded quantity plus the same-side total after
(i.e. incoming = trades + rested remainder, zero remainder when fully
filled); the opposing book loses exactly the total traded quantity (each
matched resting order is decremented by its trade quantity); and every
order still resting afterwards has positive remaining quantity (an order
is removed exactly when its remainder reaches zero). -/
theorem c9_quantity_conservation (s : OrderBook) (v : OrderBookService)
    (o : Order) (τ : ℚ) (hq : 0 < o.quantity)
    (hsb : ∀ r ∈ s.buy_orders, 0 < r.quantity)
    (hss : ∀ r ∈ s.sell_orders, 0 < r.quantity)
    (hvb : ∀ r ∈ v.buy_orders, 0 < r.quantity)
    (hvs : ∀ r ∈ v.sell_orders, 0 < r.quantity) :
    ((o.order_type = OrderType.BUY →
        o.quantity + qsum s.buy_orders
          = tsum (s.add_order o τ).1 + qsum (s.add_order o τ).2.buy_orders
        ∧ qsum s.sell_orders
          = tsum (s.add_order o τ).1 + qsum (s.add_order o τ).2.sell_orders)
    ∧ (o.order_type = OrderType.SELL →
        o.quantity + qsum s.sell_orders
          = tsum (s.add_order o τ).1 + qsum (s.add_order o τ).2.sell_orders
        ∧ qsum s.buy_orders
          = tsum (s.add_order o τ).1 + qsum (s.add_order o τ).2.buy_orders)
    ∧ (∀ r ∈ (s.add_order o τ).2.buy_orders, 0 < r.quantity)
    ∧ (∀ r ∈ (s.add_order o τ).2.sell_orders, 0 < r.quantity))
    ∧ ((o.order_type = OrderType.BUY →
        o.quantity + qsum v.buy_orders
          = tsum (v.add_order o τ).1 + qsum (v.add_order o τ).2.buy_orders
        ∧ qsum v.sell_orders
          = tsum (v.add_order o τ).1 + qsum (v.add_order o τ).2.sell_orders)
    ∧ (o.order_type = OrderType.SELL →
        o.quantity + qsum v.sell_orders
          = tsum (v.add_order o τ).1 + qsum (v.add_order o τ).2.sell_orders
        ∧ qsum v.buy_orders
          = tsum (v.add_order o τ).1 + qsum (v.add_order o τ).2.buy_orders)
    ∧ (∀ r ∈ (v.add_order o τ).2.buy_orders, 0 < r.quantity)
    ∧ (∀ r ∈ (v.add_order o τ).2.sell_orders, 0 < r.quantity)) := by
  cases ho : o.order_type with
  | BUY =>
    rw [add_order_buy_eq s o τ ho, svc_add_order_buy_eq v o τ ho]
    simp only [_process_buy_order]
    have hmkl : ∀ tid r tq, (legacyBuyTrade o τ tid r tq).quantity = tq :=
      fun _ _ _ => rfl
    have hmkv : ∀ tid r tq, (serviceBuyTrade o τ tid r tq).quantity = tq :=
      fun _ _ _ => rfl
    have hreml := matchWalk_rem (buyCross o) (legacyBuyTrade o τ) hmkl
      o.quantity s.next_trade_id s.current_price s.sell_orders
    have hnnl := matchWalk_rem_nonneg (buyCross o) (legacyBuyTrade o τ)
      o.quantity s.next_trade_id s.current_price s.sell_orders hq.le
    have hqsl := matchWalk_qsum (buyCross o) (legacyBuyTrade o τ) hmkl
      o.quantity s.next_trade_id s.current_price s.sell_orders
    have hremv := matchWalk_rem (buyCross o) (serviceBuyTrade o τ) hmkv
      o.quantity v.next_trade_id v.current_price v.sell_orders
    have hnnv := matchWalk_rem_nonneg (buyCross o) (serviceBuyTrade o τ)
      o.quantity v.next_trade_id v.current_price v.sell_orders hq.le
    have hqsv := matchWalk_qsum (buyCross o) (serviceBuyTrade o τ) hmkv
      o.quantity v.next_trade_id v.current_price v.sell_orders
    refine ⟨⟨fun _ => ⟨?_, hqsl⟩, fun hcon => by simp at hcon, ?_, ?_⟩,
      ⟨fun _ => ⟨?_, hqsv⟩, fun hcon => by simp at hcon, ?_, ?_⟩⟩
    · by_cases h : 0 < (matchWalk (buyCross o) (legacyBuyTrade o τ)
          o.quantity s.next_trade_id s.current_price s.sell_orders).rem
      · rw [if_pos h, qsum_insertionSort, qsum_append]
        have : qsum [{ o with quantity := (matchWalk (buyCross o)
            (legacyBuyTrade o τ) o.quantity s.next_trade_id s.current_price
            s.sell_orders).rem }] = (matchWalk (buyCross o)
            (legacyBuyTrade o τ) o.quantity s.next_trade_id s.current_price
            s.sell_orders).rem := by
          simp [qsum]
        rw [this]
        omega
      · rw [if_neg h]
        omega
    · intro r hr
      by_cases h : 0 < (matchWalk (buyCross o) (legacyBuyTrade o τ)
          o.quantity s.next_trade_id s.current_price s.sell_orders).rem
      · rw [if_pos h, List.mem_insertionSort, List.mem_append] at hr
        rcases hr with hr | hr
        · exact hsb r hr
        · rw [List.mem_singleton] at hr
          subst hr
          exact h
      · rw [if_neg h] at hr
        exact hsb r hr
    · exact matchWalk_pos _ _ _ _ _ _ hss
    · by_cases h : 0 < (matchWalk (buyCross o) (serviceBuyTrade o τ)
          o.quantity v.next_trade_id v.current_price v.sell_orders).rem
      · rw [if_pos h, qsum_insert_buy_order]
        dsimp only
        omega
      · rw [if_neg h]
        omega
    · intro r hr
      by_cases h : 0 < (matchWalk (buyCross o) (serviceBuyTrade o τ)
          o.quantity v.next_trade_id v.current_price v.sell_orders).rem
      · rw [if_pos h] at hr
        rcases mem_insert_buy_order hr with hr | hr
        · subst hr
          exact h
        · exact hvb r hr
      · rw [if_neg h] at hr
        exact hvb r hr
    · exact matchWalk_pos _ _ _ _ _ _ hvs
  | SELL =>
    rw [add_order_sell_eq s o τ ho, svc_add_order_sell_eq v o τ ho]
    simp only [_process_sell_order]
    have hmkl : ∀ tid r tq, (legacySellTrade o τ tid r tq).quantity = tq :=
      fun _ _ _ => rfl
    have hmkv : ∀ tid r tq, (serviceSellTrade o τ tid r tq).quantity = tq :=
      fun _ _ _ => rfl
    have hreml := matchWalk_rem (sellCross o) (legacySellTrade o τ) hmkl
      o.quantity s.next_trade_id s.current_price s.buy_orders
    have hnnl := matchWalk_rem_nonneg (sellCross o) (legacySellTrade o τ)
      o.quantity s.next_trade_id s.current_price s.buy_orders hq.le
    have hqsl := matchWalk_qsum (sellCross o) (legacySellTrade o τ) hmkl
      o.quantity s.next_trade_id s.current_price s.buy_orders
    have hremv := matchWalk_rem (sellCross o) (serviceSellTrade o τ) hmkv
      o.quantity v.next_trade_id v.current_price v.buy_orders
    have hnnv := matchWalk_rem_nonneg (sellCross o) (serviceSellTrade o τ)
      o.quantity v.next_trade_id v.current_price v.buy_orders hq.le
    have hqsv := matchWalk_qsum (sellCross o) (serviceSellTrade o τ) hmkv
      o.quantity v.next_trade_id v.current_price v.buy_orders
    refine ⟨⟨fun hcon => by simp at hcon, fun _ => ⟨?_, hqsl⟩, ?_, ?_⟩,
      ⟨fun hcon => by simp at hcon, fun _ => ⟨?_, hqsv⟩, ?_, ?_⟩⟩
    · by_cases h : 0 < (matchWalk (sellCross o) (legacySellTrade o τ)
          o.quantity s.next_trade_id s.current_price s.buy_orders).rem
      · rw [if_pos h, qsum_insertionSort, qsum_append]
        have : qsum [{ o with quantity := (matchWalk (sellCross o)
            (legacySellTrade o τ) o.quantity s.next_trade_id s.current_price
            s.buy_orders).rem }] = (matchWalk (sellCross o)
            (legacySellTrade o τ) o.quantity s.next_trade_id s.current_price
            s.buy_orders).rem := by
          simp [qsum]
        rw [this]
        omega
      · rw [if_neg h]
        omega
    · exact matchWalk_pos _ _ _ _ _ _ hsb
    · intro r hr
      by_cases h : 0 < (matchWalk (sellCross o) (legacySellTrade o τ)
          o.quantity s.next_trade_id s.current_price s.buy_orders).rem
      · rw [if_pos h, List.mem_insertionSort, List.mem_append] at hr
        rcases hr with hr | hr
        · exact hss r hr
        · rw [List.mem_singleton] at hr
          subst hr
          exact h
      · rw [if_neg h] at hr
        exact hss r hr
    · by_cases h : 0 < (matchWalk (sellCross o) (serviceSellTrade o τ)
          o.quantity v.next_trade_id v.current_price v.buy_orders).rem
      · rw [if_pos h, qsum_insert_sell_order]
        dsimp only
        omega
      · rw [if_neg h]
        omega
    · exact matchWalk_pos _ _ _ _ _ _ hvb
    · intro r hr
      by_cases h : 0 < (matchWalk (sellCross o) (serviceSellTrade o τ)
          o.quantity v.next_trade_id v.current_price v.buy_orders).rem
      · rw [if_pos h] at hr
        rcases mem_insert_sell_order hr with hr | hr
        · subst hr
          exact h
        · exact hvs r hr
      · rw [if_neg h] at hr
        exact hvs r hr

/-- Witness for C9: the accounting applied with the Buy 15@100 order on
empty books. -/
theorem c9_quantity_conservation_witness :
    c4_o3.quantity + qsum (OrderBook.init 100).buy_orders
      = tsum ((OrderBook.init 100).add_order c4_o3 3).1
        + qsum ((OrderBook.init 100).add_order c4_o3 3).2.buy_orders :=
  ((c9_quantity_conservation (OrderBook.init 100) (OrderBookService.init 100 5000)
    c4_o3 3 (by norm_num [c4_o3])
    (by simp [OrderBook.init]) (by simp [OrderBook.init])
    (by simp [OrderBookService.init]) (by simp [OrderBookService.init])).1.1
    rfl).1

/-- C3, counterexample: agent 0 submits Sell 10@100 (rests), agent 1 then
submits Buy 10@100, producing the trade (price 100, qty 10, buyer 1,
seller 0) within the same cycle.  After the cycle, the buyer agent 1 is
updated (cash 10000 → 9000, position 0 → 10), but the seller agent 0 —
the party whose order was resting — is completely unchanged
(cash 10000, position 0), not cash 10000 + 100×10 = 11000 and position
0 − 10 = −10 as the claim demands for the seller of every trade. -/
theorem c3_counterparty_cex :
    c3_run.2.2 = [⟨1, 100, 10, 1, 0, 2⟩]
    ∧ c3_run.2.1 = [⟨0, 10000, 0⟩, ⟨1, 9000, 10⟩]
    ∧ ¬ (((10000 : ℚ), (0 : ℤ)) = (10000 + 100 * 10, 0 - 10)) := by
  refine ⟨?_, ?_, by norm_num⟩ <;>
    norm_num [c3_run, c3_dec, c3_agents, run_cycle_agents,
      applyTradesToAgent, AgentL.update_after_trade, OrderBook.init,
      OrderBook.add_order, matchWalk, buyCross, sellCross, legacyBuyTrade,
      legacySellTrade, List.insertionSort, List.orderedInsert, rBuy, rSell]

/-- C3, amended: within a cycle, the trade effects are applied only to the
SUBMITTING agent: each agent's post-cycle ledger is the fold of
`update_after_trade` over the trades returned by its OWN submission alone
(unchanged if it submitted nothing), so the counterparty whose order was
resting in the book receives no cash/position update for the trade. -/
theorem c3_submitter_only_amended (dec : ℤ → Option Order) (τ : ℚ) :
    ∀ (agents : List AgentL) (ob : OrderBook) (n : ℕ),
      (run_cycle_agents dec τ ob agents).2.1[n]? =
        (agents[n]?).map (fun a =>
          match dec a.id with
          | none => a
          | some o =>
            applyTradesToAgent a
              (OrderBook.add_order
                { (run_cycle_agents dec τ ob (agents.take n)).1 with
                  next_order_id :=
                    (run_cycle_agents dec τ ob
                      (agents.take n)).1.next_order_id + 1 }
                { o with id :=
                    (run_cycle_agents dec τ ob (agents.take n)).1.next_order_id }
                τ).1)
  | [], ob, n => by simp [run_cycle_agents]
  | a :: rest, ob, 0 => by
    cases hdec : dec a.id with
    | none => simp [run_cycle_agents, hdec]
    | some o => simp [run_cycle_agents, hdec]
  | a :: rest, ob, n + 1 => by
    cases hdec : dec a.id with
    | none =>
      have ih := c3_submitter_only_amended dec τ rest ob n
      simp only [run_cycle_agents, hdec, List.getElem?_cons_succ,
        List.take_succ_cons]
      exact ih
    | some o =>
      have ih := c3_submitter_only_amended dec τ rest
        (OrderBook.add_order
          { ob with next_order_id := ob.next_order_id + 1 }
          { o with id := ob.next_order_id } τ).2 n
      simp only [run_cycle_agents, hdec, List.getElem?_cons_succ,
        List.take_succ_cons]
      exact ih

end SimExchange
